import Mathlib

/-!
terraform-ls: required-attribute validation and diagnostic conversion

A shallow embedding of

* `internal/features/modules/decoder/validations/missing_required_attribute.go`
  (`MissingRequiredAttribute.Visit`, `buildMissingRequiredAttributeCodeAction`,
  `HasUnknownRequiredAttributes`, `WithUnknownRequiredAttributes`), and
* `internal/lsp/diagnostics.go`
  (`HCLSeverityToLSP`, `HCLDiagsToLSP`, `HCLCodeActionsToLSP`, `HCLCodeActionToLSP`).

Conventions of the embedding.

* A Go slice is `Option (List α)`: `none` is the nil slice, `some []` the empty
  non-nil slice.  `append` never returns nil once an element was added.
* A Go map with string keys is `Option (List (String × α))`: `none` is the nil
  map (reads find nothing, `range` runs zero times, a write panics).  The list
  of a non-nil schema map is the order in which `range` visits its entries.
* A call either returns a value or panics: `Outcome.returns v` or
  `Outcome.panics msg`.
* The mutation of the visited `*hclsyntax.Body` is made explicit: `Visit`
  returns the node as it is left after the call.
* Pointers to nodes, schemas, diagnostics and attribute schemas are non-nil,
  and so is the context.  Strings are valid UTF-8.
* `log.Printf` only writes to the log and is left out.
-/

namespace TerraformLS

/-! ## Go slices and maps -/

/-- Go slice: `none` is nil. -/
abbrev Slice (α : Type) := Option (List α)

/-- Elements of a slice, as `range` visits them; nil has none. -/
def Slice.elems {α : Type} : Slice α → List α
  | none => []
  | some l => l

/-- Go `append(s, x)`. -/
def Slice.append {α : Type} (s : Slice α) (x : α) : Slice α :=
  some (s.elems ++ [x])

/-- Go `len(s)`. -/
def Slice.len {α : Type} (s : Slice α) : Nat := s.elems.length

/-- Result of running Go code that may panic. -/
inductive Outcome (α : Type) where
  | returns (v : α)
  | panics (msg : String)
  deriving DecidableEq, Repr

/-- Entries of a non-nil Go map keyed by strings. -/
abbrev Entries (α : Type) := List (String × α)

/-- Go `v, ok := m[k]` on the entries of a non-nil map. -/
def Entries.get {α : Type} (m : Entries α) (k : String) : Option α :=
  match m with
  | [] => none
  | (k', v) :: rest => if k' = k then some v else Entries.get rest k

/-- Go `m[k] = v` on the entries of a non-nil map: overwrite the entry of `k`,
or add one. -/
def Entries.set {α : Type} (m : Entries α) (k : String) (v : α) : Entries α :=
  match m with
  | [] => [(k, v)]
  | (k', v') :: rest => if k' = k then (k, v) :: rest else (k', v') :: Entries.set rest k v

/-- Go map: `none` is the nil map. -/
abbrev GoMap (α : Type) := Option (Entries α)

/-- Go `v, ok := m[k]`; a nil map holds no key. -/
def GoMap.get {α : Type} (m : GoMap α) (k : String) : Option α :=
  match m with
  | none => none
  | some es => Entries.get es k

/-- The `ok` of Go `_, ok := m[k]`. -/
def GoMap.has {α : Type} (m : GoMap α) (k : String) : Bool := (m.get k).isSome

/-- Keys of a Go map; a nil map has none. -/
def GoMap.keys {α : Type} (m : GoMap α) : List String :=
  match m with
  | none => []
  | some es => es.map Prod.fst

/-- Go `m[k] = v`; panics on a nil map. -/
def GoMap.set {α : Type} (m : GoMap α) (k : String) (v : α) : Outcome (GoMap α) :=
  match m with
  | none => Outcome.panics "assignment to entry in nil map"
  | some es => Outcome.returns (some (Entries.set es k v))

/-! ## hcl, hclsyntax, cty and schema data -/

/-- Go `hcl.Pos`. -/
structure Pos where
  Line : Int
  Column : Int
  Byte : Int
  deriving DecidableEq, Repr

/-- Go `hcl.Range`. -/
structure Range where
  Filename : String
  Start : Pos
  End : Pos
  deriving DecidableEq, Repr

/-- Go `hcl.TextEdit`. -/
structure TextEdit where
  Range : Range
  NewText : String
  deriving DecidableEq, Repr

/-- Go `hcl.CodeAction`. -/
structure CodeAction where
  Message : String
  Kind : String
  Edits : Slice TextEdit
  deriving DecidableEq, Repr

/-- Go `hcl.DiagnosticSeverity`, an integer type. -/
abbrev DiagnosticSeverity := Int

/-- Go `hcl.DiagInvalid`, the zero value. -/
def DiagInvalid : DiagnosticSeverity := 0
/-- Go `hcl.DiagError`. -/
def DiagError : DiagnosticSeverity := 1
/-- Go `hcl.DiagWarning`. -/
def DiagWarning : DiagnosticSeverity := 2

/-- Go `hcl.Diagnostic`, with the fields this code reads or writes. -/
structure Diagnostic where
  Severity : DiagnosticSeverity
  Summary : String
  Detail : String
  Subject : Option Range
  CodeActions : Slice CodeAction
  deriving DecidableEq, Repr

/-- Go `cty.Type`, as far as this code names types. -/
inductive CtyType where
  | zero
  | string
  | other (name : String)
  deriving DecidableEq, Repr

/-- Go `cty.Value`: a null of some type, or some other value. -/
inductive CtyValue where
  | null (ty : CtyType)
  | other (text : String)
  deriving DecidableEq, Repr

/-- Go `cty.NullVal`. -/
def NullVal (ty : CtyType) : CtyValue := CtyValue.null ty

/-- Go `hclsyntax.Expression`: a literal value, or any other expression. -/
inductive Expression where
  | LiteralValueExpr (Val : CtyValue)
  | other (text : String)
  deriving DecidableEq, Repr

/-- Go `hclsyntax.Attribute`. -/
structure Attribute where
  Name : String
  Expr : Expression
  deriving DecidableEq, Repr

/-- Go `hclsyntax.Body`. -/
structure Body where
  Attributes : GoMap Attribute
  SrcRange : Range
  deriving DecidableEq, Repr

/-- Go `hclsyntax.Block`; `Type_` is its field `Type`. -/
structure Block where
  Type_ : String
  Labels : List String
  deriving DecidableEq, Repr

/-- Go `hclsyntax.Node`, dispatched on by the type switch of `Visit`. -/
inductive Node where
  | Block (b : Block)
  | Body (b : Body)
  | Attribute (a : Attribute)
  | other (text : String)
  deriving DecidableEq, Repr

/-- Go `schema.AttributeSchema`. -/
structure AttributeSchema where
  IsRequired : Bool
  deriving DecidableEq, Repr

/-- Go `schema.BodySchema`. -/
structure BodySchema where
  Attributes : GoMap AttributeSchema
  deriving DecidableEq, Repr

/-- Go `schema.Schema` interface value: nil, a `*schema.BodySchema`, or a
schema of another dynamic type. -/
inductive Schema where
  | nil
  | BodySchema (s : BodySchema)
  | other (text : String)
  deriving DecidableEq, Repr

/-! ## context.Context -/

/-- Keys under which values are stored in a context. -/
inductive CtxKey where
  | unknownRequiredAttrsCtxKey
  | blockNestingLevelCtxKey
  | other (name : String)
  deriving DecidableEq, Repr

/-- Values stored in a context, by dynamic type. -/
inductive CtxValue where
  | bool (b : Bool)
  | int (n : Int)
  | other (text : String)
  deriving DecidableEq, Repr

/-- Go `context.Context`: the chain of `WithValue` layers, innermost first. -/
abbrev Context := List (CtxKey × CtxValue)

/-- Go `ctx.Value(key)`: the innermost layer that stores `key`. -/
def Context.Value (ctx : Context) (key : CtxKey) : Option CtxValue :=
  match ctx with
  | [] => none
  | (k, v) :: parent => if k = key then some v else Context.Value parent key

/-- Go `context.WithValue`. -/
def WithValue (ctx : Context) (key : CtxKey) (v : CtxValue) : Context := (key, v) :: ctx

/-- Go `schemacontext.BlockNestingLevel` of hcl-lang: the value stored under its
key, asserted to be an `int`. -/
def BlockNestingLevel (ctx : Context) : Int × Bool :=
  match ctx.Value CtxKey.blockNestingLevelCtxKey with
  | some (CtxValue.int n) => (n, true)
  | _ => (0, false)

/-- Go `HasUnknownRequiredAttributes`. -/
def HasUnknownRequiredAttributes (ctx : Context) : Bool :=
  match ctx.Value CtxKey.unknownRequiredAttrsCtxKey with
  | some (CtxValue.bool _) => true
  | _ => false

/-- Go `WithUnknownRequiredAttributes`. -/
def WithUnknownRequiredAttributes (ctx : Context) : Context :=
  WithValue ctx CtxKey.unknownRequiredAttrsCtxKey (CtxValue.bool true)

/-! ## Library code the validator calls -/

/-- Library data that the source reaches through `fmt` and `hclwrite` and that
is taken as given: the Unicode tables of `strconv.IsPrint` above U+00FF, and
the bytes `hclwrite` prints for a file whose only attribute is `name = null`. -/
structure Lib where
  isPrintTable : Char → Bool
  renderNullAttribute : String → String

/-- Go `strconv.IsPrint`: the Latin-1 fast path, then the tables. -/
def IsPrint (lib : Lib) (r : Char) : Bool :=
  if r.toNat ≤ 0xFF then
    if 0x20 ≤ r.toNat ∧ r.toNat ≤ 0x7E then true
    else if 0xA1 ≤ r.toNat ∧ r.toNat ≤ 0xFF then r.toNat != 0xAD
    else false
  else lib.isPrintTable r

/-- The double quote character. -/
def dquote : Char := Char.ofNat 34

/-- The backslash character. -/
def backslash : Char := Char.ofNat 92

/-- Go `lowerhex[n]`. -/
def lowerhex (n : Nat) : Char := "0123456789abcdef".data.getD (n % 16) '0'

/-- Go `strconv.appendEscapedRune` as `strconv.Quote` calls it (quote `"`,
not ASCII-only, not graphic-only), on a valid rune. -/
def appendEscapedRune (lib : Lib) (r : Char) : List Char :=
  if r = dquote ∨ r = backslash then [backslash, r]
  else if IsPrint lib r then [r]
  else if r.toNat = 7 then [backslash, 'a']
  else if r.toNat = 8 then [backslash, 'b']
  else if r.toNat = 12 then [backslash, 'f']
  else if r.toNat = 10 then [backslash, 'n']
  else if r.toNat = 13 then [backslash, 'r']
  else if r.toNat = 9 then [backslash, 't']
  else if r.toNat = 11 then [backslash, 'v']
  else if r.toNat < 0x20 ∨ r.toNat = 0x7F then
    [backslash, 'x', lowerhex (r.toNat / 16), lowerhex r.toNat]
  else if r.toNat < 0x10000 then
    [backslash, 'u', lowerhex (r.toNat / 0x1000), lowerhex (r.toNat / 0x100),
      lowerhex (r.toNat / 0x10), lowerhex r.toNat]
  else
    [backslash, 'U', lowerhex (r.toNat / 0x10000000), lowerhex (r.toNat / 0x1000000),
      lowerhex (r.toNat / 0x100000), lowerhex (r.toNat / 0x10000),
      lowerhex (r.toNat / 0x1000), lowerhex (r.toNat / 0x100),
      lowerhex (r.toNat / 0x10), lowerhex r.toNat]

/-- Runes between the quotes of `strconv.Quote`. -/
def quoteRunes (lib : Lib) : List Char → List Char
  | [] => []
  | r :: rest => appendEscapedRune lib r ++ quoteRunes lib rest

/-- Go `strconv.Quote(s)`, which is what the verb `%q` prints for a string
(valid UTF-8). -/
def Quote (lib : Lib) (s : String) : String :=
  String.mk (dquote :: (quoteRunes lib s.data ++ [dquote]))

/-- Modelled from the spec: the constant `lsp.QuickfixAddMissingAttributes` is
declared in another file of package `lsp`; the fix builder's kind is `quickfix`. -/
def QuickfixAddMissingAttributes : String := "quickfix"

/-! ## The validator -/

/-- Go `fmt.Sprintf("Required attribute %q not specified", name)`. -/
def summaryOf (lib : Lib) (name : String) : String :=
  "Required attribute " ++ Quote lib name ++ " not specified"

/-- Go `fmt.Sprintf("An attribute named %q is required here", name)`. -/
def detailOf (lib : Lib) (name : String) : String :=
  "An attribute named " ++ Quote lib name ++ " is required here"

/-- Go `MissingRequiredAttribute.buildMissingRequiredAttributeCodeAction`.
Dereferencing a nil `diag.Subject` panics. -/
def buildMissingRequiredAttributeCodeAction (lib : Lib) (diag : Diagnostic)
    (missingAttribute : String) : Outcome CodeAction :=
  let edits : Slice TextEdit := none
  match diag.Subject with
  | none => Outcome.panics "invalid memory address or nil pointer dereference"
  | some subject =>
    let r0 : Range := subject
    let r1 : Range := { r0 with Start := r0.End }
    let r2 : Range := { r1 with Start := { r1.Start with Column := 1 } }
    let r3 : Range := { r2 with End := { r2.End with Column := 1 } }
    let edit : TextEdit := { Range := r3, NewText := lib.renderNullAttribute missingAttribute }
    let edits := edits.append edit
    Outcome.returns
      { Message := "Add missing attribute", Kind := QuickfixAddMissingAttributes, Edits := edits }

/-- The placeholder attribute that `Visit` stores for a missing name. -/
def placeholder (name : String) : Attribute :=
  { Name := name, Expr := Expression.LiteralValueExpr (NullVal CtyType.zero) }

/-- One round of the loop `for name, attr := range bodySchema.Attributes` of
`Visit`, on the attribute map of the body and the diagnostics so far. -/
def visitAttribute (lib : Lib) (SrcRange : Range) (st : GoMap Attribute × Slice Diagnostic)
    (name : String) (attr : AttributeSchema) :
    Outcome (GoMap Attribute × Slice Diagnostic) :=
  if attr.IsRequired then
    if st.1.has name then Outcome.returns st
    else
      let diag : Diagnostic :=
        { Severity := DiagError, Summary := summaryOf lib name, Detail := detailOf lib name,
          Subject := some SrcRange, CodeActions := none }
      match st.1.set name (placeholder name) with
      | Outcome.panics e => Outcome.panics e
      | Outcome.returns attrs =>
        match buildMissingRequiredAttributeCodeAction lib diag name with
        | Outcome.panics e => Outcome.panics e
        | Outcome.returns action =>
          let diag : Diagnostic := { diag with CodeActions := diag.CodeActions.append action }
          Outcome.returns (attrs, st.2.append diag)
  else Outcome.returns st

/-- The loop `for name, attr := range bodySchema.Attributes` of `Visit`; the
list is the order in which `range` yields the entries. -/
def visitAttributes (lib : Lib) (SrcRange : Range) :
    GoMap Attribute × Slice Diagnostic → Entries AttributeSchema →
    Outcome (GoMap Attribute × Slice Diagnostic)
  | st, [] => Outcome.returns st
  | st, (name, attr) :: rest =>
    match visitAttribute lib SrcRange st name attr with
    | Outcome.panics e => Outcome.panics e
    | Outcome.returns st' => visitAttributes lib SrcRange st' rest

/-- Go `MissingRequiredAttribute.Visit`.  The result holds the returned
context, the returned diagnostics and the node as the call leaves it. -/
def Visit (lib : Lib) (ctx : Context) (node : Node) (nodeSchema : Schema) :
    Outcome (Context × Slice Diagnostic × Node) :=
  let diags : Slice Diagnostic := none
  if HasUnknownRequiredAttributes ctx then Outcome.returns (ctx, diags, node)
  else
    match node with
    | Node.Block nodeType =>
      let lvl := BlockNestingLevel ctx
      let nestingLvl := lvl.1
      let nestingOk := lvl.2
      let ctx := if nodeType.Type_ = "provider" ∧ (nestingOk = true ∧ nestingLvl = 0)
                 then WithUnknownRequiredAttributes ctx else ctx
      Outcome.returns (ctx, diags, node)
    | Node.Body nodeType =>
      match nodeSchema with
      | Schema.nil => Outcome.returns (ctx, diags, node)
      | Schema.other _ =>
        Outcome.panics "interface conversion: schema.Schema is not *schema.BodySchema"
      | Schema.BodySchema bodySchema =>
        match bodySchema.Attributes with
        | none => Outcome.returns (ctx, diags, node)
        | some entries =>
          match visitAttributes lib nodeType.SrcRange (nodeType.Attributes, diags) entries with
          | Outcome.panics e => Outcome.panics e
          | Outcome.returns st =>
            Outcome.returns (ctx, st.2, Node.Body { nodeType with Attributes := st.1 })
    | _ => Outcome.returns (ctx, diags, node)

/-- A library instance for evaluating examples: no rune above U+00FF counts as
printable, and an attribute is printed as `name = null` and a newline. -/
def plainLib : Lib :=
  { isPrintTable := fun _ => false,
    renderNullAttribute := fun name => name ++ " = null\n" }

/-! ## The protocol side -/

/-- Go `lsp.Position` of the protocol package. -/
structure lsp.Position where
  Line : Int
  Character : Int
  deriving DecidableEq, Repr

/-- Go `lsp.Range` of the protocol package. -/
structure lsp.Range where
  Start : lsp.Position
  End : lsp.Position
  deriving DecidableEq, Repr

/-- Go `lsp.TextEdit`. -/
structure lsp.TextEdit where
  Range : lsp.Range
  NewText : String
  deriving DecidableEq, Repr

/-- Go `lsp.WorkspaceEdit`; `Changes` maps a document URI to its edits. -/
structure lsp.WorkspaceEdit where
  Changes : GoMap (Slice lsp.TextEdit)
  deriving DecidableEq, Repr

/-- Go `lsp.CodeAction`. -/
structure lsp.CodeAction where
  Title : String
  Kind : String
  Edit : lsp.WorkspaceEdit
  deriving DecidableEq, Repr

/-- Go `lsp.DiagnosticSeverity`, a numeric type. -/
abbrev lsp.DiagnosticSeverity := Nat

/-- Modelled from the spec: `lsp.SeverityError` of the protocol package, the
protocol-Error, numbered 1 by the protocol. -/
def lsp.SeverityError : lsp.DiagnosticSeverity := 1

/-- Modelled from the spec: `lsp.SeverityWarning` of the protocol package, the
protocol-Warning, numbered 2 by the protocol. -/
def lsp.SeverityWarning : lsp.DiagnosticSeverity := 2

/-- Go `lsp.Diagnostic`. -/
structure lsp.Diagnostic where
  Range : lsp.Range
  Severity : lsp.DiagnosticSeverity
  Source : String
  Message : String
  Data : Slice lsp.CodeAction
  deriving DecidableEq, Repr

/-- The zero value of `lsp.Range`, what `var rnge lsp.Range` holds. -/
def lsp.zeroRange : lsp.Range := { Start := { Line := 0, Character := 0 },
                                   End := { Line := 0, Character := 0 } }

/-- Modelled from the spec: `HCLPosToLSP` is declared in another file of
package `lsp`; `protocolLine = domainLine - 1`, `protocolChar = domainColumn - 1`. -/
def HCLPosToLSP (pos : Pos) : lsp.Position :=
  { Line := pos.Line - 1, Character := pos.Column - 1 }

/-- Modelled from the spec: `HCLRangeToLSP` is declared in another file of
package `lsp`; both ends of the range are converted. -/
def HCLRangeToLSP (rng : Range) : lsp.Range :=
  { Start := HCLPosToLSP rng.Start, End := HCLPosToLSP rng.End }

/-- Go `HCLSeverityToLSP`; a severity outside the three named ones leaves the
zero value. -/
def HCLSeverityToLSP (severity : DiagnosticSeverity) : Outcome lsp.DiagnosticSeverity :=
  let sev : lsp.DiagnosticSeverity := 0
  if severity = DiagError then Outcome.returns lsp.SeverityError
  else if severity = DiagWarning then Outcome.returns lsp.SeverityWarning
  else if severity = DiagInvalid then Outcome.panics "invalid diagnostic"
  else Outcome.returns sev

/-- The protocol edit that `HCLCodeActionToLSP` builds from one edit. -/
def editToLSP (edit : TextEdit) : lsp.TextEdit :=
  { Range := HCLRangeToLSP edit.Range, NewText := edit.NewText }

/-- Go `edits[k]` for a slice-valued map: a missing key reads as the nil slice. -/
def Entries.getSlice {α : Type} (m : Entries (Slice α)) (k : String) : Slice α :=
  match Entries.get m k with
  | none => none
  | some s => s

/-- One round of the loop of `HCLCodeActionToLSP`: make the map when it is
nil, then store under `source` the slice read under the edit's file name with
the converted edit appended. -/
def codeActionEdit (source : String) (edits : GoMap (Slice lsp.TextEdit)) (edit : TextEdit) :
    GoMap (Slice lsp.TextEdit) :=
  let edits : Entries (Slice lsp.TextEdit) :=
    match edits with
    | none => []
    | some es => es
  some (Entries.set edits source
    (Slice.append (Entries.getSlice edits edit.Range.Filename) (editToLSP edit)))

/-- The loop `for _, edit := range codeAction.Edits` of `HCLCodeActionToLSP`. -/
def codeActionEdits (source : String) :
    GoMap (Slice lsp.TextEdit) → List TextEdit → GoMap (Slice lsp.TextEdit)
  | edits, [] => edits
  | edits, edit :: rest => codeActionEdits source (codeActionEdit source edits edit) rest

/-- Go `HCLCodeActionToLSP`. -/
def HCLCodeActionToLSP (codeAction : CodeAction) (source : String) : lsp.CodeAction :=
  let edits : GoMap (Slice lsp.TextEdit) := none
  let edits := codeActionEdits source edits codeAction.Edits.elems
  { Title := codeAction.Message, Kind := codeAction.Kind, Edit := { Changes := edits } }

/-- The loop of `HCLCodeActionsToLSP`. -/
def codeActionsLoop (source : String) :
    Slice lsp.CodeAction → List CodeAction → Slice lsp.CodeAction
  | acc, [] => acc
  | acc, codeAction :: rest =>
    codeActionsLoop source (acc.append (HCLCodeActionToLSP codeAction source)) rest

/-- Go `HCLCodeActionsToLSP`. -/
def HCLCodeActionsToLSP (codeActions : Slice CodeAction) (source : String) :
    Slice lsp.CodeAction :=
  codeActionsLoop source (some []) codeActions.elems

/-- One round of the loop of `HCLDiagsToLSP`. -/
def diagToLSP (hclDiag : Diagnostic) (source : String) : Outcome lsp.Diagnostic :=
  let msg := hclDiag.Summary
  let msg := if hclDiag.Detail ≠ "" then msg ++ (": " ++ hclDiag.Detail) else msg
  let rnge : lsp.Range :=
    match hclDiag.Subject with
    | some subject => HCLRangeToLSP subject
    | none => lsp.zeroRange
  let codeActions := HCLCodeActionsToLSP hclDiag.CodeActions source
  match HCLSeverityToLSP hclDiag.Severity with
  | Outcome.panics e => Outcome.panics e
  | Outcome.returns sev =>
    Outcome.returns { Range := rnge, Severity := sev, Source := source, Message := msg,
                      Data := codeActions }

/-- The loop `for _, hclDiag := range hclDiags` of `HCLDiagsToLSP`. -/
def diagsLoop (source : String) :
    Slice lsp.Diagnostic → List Diagnostic → Outcome (Slice lsp.Diagnostic)
  | diags, [] => Outcome.returns diags
  | diags, hclDiag :: rest =>
    match diagToLSP hclDiag source with
    | Outcome.panics e => Outcome.panics e
    | Outcome.returns d => diagsLoop source (diags.append d) rest

/-- Go `HCLDiagsToLSP`. -/
def HCLDiagsToLSP (hclDiags : Slice Diagnostic) (source : String) :
    Outcome (Slice lsp.Diagnostic) :=
  diagsLoop source (some []) hclDiags.elems

/-! ## Notions used to state the properties -/

/-- The diagnostic that `Visit` is to produce for the missing name `name` on a
body whose source range is `SrcRange`, written out field by field. -/
def missingDiag (lib : Lib) (SrcRange : Range) (name : String) : Diagnostic :=
  { Severity := DiagError,
    Summary := summaryOf lib name,
    Detail := detailOf lib name,
    Subject := some SrcRange,
    CodeActions := some
      [{ Message := "Add missing attribute",
         Kind := QuickfixAddMissingAttributes,
         Edits := some
           [{ Range := { Filename := SrcRange.Filename,
                         Start := { Line := SrcRange.End.Line, Column := 1,
                                    Byte := SrcRange.End.Byte },
                         End := { Line := SrcRange.End.Line, Column := 1,
                                  Byte := SrcRange.End.Byte } },
              NewText := lib.renderNullAttribute name }] }] }

/-- Names that the schema entries mark required and that are no key of the
attribute map, in the order of the entries. -/
def missingNames (attrs : GoMap Attribute) (entries : Entries AttributeSchema) : List String :=
  (entries.filter (fun e => e.2.IsRequired && !attrs.has e.1)).map Prod.fst

/-- The attribute entries after a placeholder was stored for each name. -/
def withPlaceholders (m : Entries Attribute) (names : List String) : Entries Attribute :=
  names.foldl (fun acc n => Entries.set acc n (placeholder n)) m

/-- A name made of printable ASCII other than the double quote and the
backslash, which `%q` prints unchanged between two double quotes. -/
def plainName (name : String) : Bool :=
  name.data.all (fun r => decide (0x20 ≤ r.toNat) && decide (r.toNat ≤ 0x7E) &&
    decide (r ≠ dquote) && decide (r ≠ backslash))

/-- The protocol severity that `HCLSeverityToLSP` leaves in `sev` when it does
not panic. -/
def severityValue (severity : DiagnosticSeverity) : lsp.DiagnosticSeverity :=
  if severity = DiagError then lsp.SeverityError
  else if severity = DiagWarning then lsp.SeverityWarning
  else 0

/-- The protocol diagnostic that one round of the loop of `HCLDiagsToLSP` is to
append for a diagnostic whose severity is not Invalid, written out field by
field. -/
def convertedDiag (source : String) (hclDiag : Diagnostic) : lsp.Diagnostic :=
  { Range := match hclDiag.Subject with
             | some subject => HCLRangeToLSP subject
             | none => lsp.zeroRange,
    Severity := severityValue hclDiag.Severity,
    Source := source,
    Message := if hclDiag.Detail = "" then hclDiag.Summary
               else hclDiag.Summary ++ ": " ++ hclDiag.Detail,
    Data := HCLCodeActionsToLSP hclDiag.CodeActions source }

/-! ## Maps -/

theorem Entries.get_set {α : Type} (m : Entries α) (k k' : String) (v : α) :
    Entries.get (Entries.set m k v) k' = if k = k' then some v else Entries.get m k' := by
  induction m with
  | nil => simp [Entries.set, Entries.get]
  | cons e rest ih =>
    obtain ⟨k0, v0⟩ := e
    by_cases h0 : k0 = k
    · subst h0
      by_cases h1 : k0 = k' <;> simp [Entries.set, Entries.get, h1]
    · by_cases h1 : k0 = k'
      · subst h1
        have h2 : ¬ k = k0 := fun h => h0 h.symm
        simp [Entries.set, Entries.get, h0, h2]
      · simp [Entries.set, Entries.get, h0, h1, ih]

theorem Entries.get_isSome_iff {α : Type} (m : Entries α) (k : String) :
    (Entries.get m k).isSome = true ↔ k ∈ m.map Prod.fst := by
  induction m with
  | nil => simp [Entries.get]
  | cons e rest ih =>
    obtain ⟨k0, v0⟩ := e
    by_cases h0 : k0 = k
    · simp [Entries.get, h0]
    · have h1 : ¬ k = k0 := fun h => h0 h.symm
      simp [Entries.get, h0, h1, ih]

theorem GoMap.has_iff {α : Type} (m : GoMap α) (k : String) :
    m.has k = true ↔ k ∈ m.keys := by
  cases m with
  | none => simp [GoMap.has, GoMap.get, GoMap.keys]
  | some es => simpa [GoMap.has, GoMap.get, GoMap.keys] using Entries.get_isSome_iff es k

theorem GoMap.has_set {α : Type} (es : Entries α) (k k' : String) (v : α) :
    GoMap.has (some (Entries.set es k v)) k' = (decide (k = k') || GoMap.has (some es) k') := by
  simp only [GoMap.has, GoMap.get, Entries.get_set]
  by_cases h : k = k' <;> simp [h]

/-! ## One round of the loop of `Visit` -/

theorem visitAttribute_skip (lib : Lib) (rng : Range) (st : GoMap Attribute × Slice Diagnostic)
    (name : String) (attr : AttributeSchema)
    (h : attr.IsRequired = false ∨ st.1.has name = true) :
    visitAttribute lib rng st name attr = Outcome.returns st := by
  unfold visitAttribute
  rcases h with h | h
  · simp [h]
  · simp [h]

theorem visitAttribute_missing (lib : Lib) (rng : Range) (m : Entries Attribute)
    (d : Slice Diagnostic) (name : String) (attr : AttributeSchema)
    (hr : attr.IsRequired = true) (hm : GoMap.has (some m) name = false) :
    visitAttribute lib rng (some m, d) name attr =
      Outcome.returns (some (Entries.set m name (placeholder name)),
        d.append (missingDiag lib rng name)) := by
  simp [visitAttribute, hr, hm, GoMap.set, buildMissingRequiredAttributeCodeAction,
    missingDiag, Slice.append, Slice.elems]

theorem visitAttribute_nil_map (lib : Lib) (rng : Range) (d : Slice Diagnostic)
    (name : String) (attr : AttributeSchema) (hr : attr.IsRequired = true) :
    visitAttribute lib rng (none, d) name attr =
      Outcome.panics "assignment to entry in nil map" := by
  simp [visitAttribute, hr, GoMap.set, GoMap.has, GoMap.get]

/-- What one round does to the state, whenever it returns: keys are kept, a
required name is a key afterwards, and a new diagnostic is the one of this
name, which was required and missing. -/
theorem visitAttribute_returns (lib : Lib) (rng : Range)
    (st st' : GoMap Attribute × Slice Diagnostic) (name : String) (attr : AttributeSchema)
    (h : visitAttribute lib rng st name attr = Outcome.returns st') :
    (∀ k, st.1.has k = true → st'.1.has k = true) ∧
    (attr.IsRequired = true → st'.1.has name = true) ∧
    (∀ x ∈ st'.2.elems, x ∈ st.2.elems ∨
      (x = missingDiag lib rng name ∧ attr.IsRequired = true ∧ st.1.has name = false)) := by
  obtain ⟨m, d⟩ := st
  by_cases hs : attr.IsRequired = false ∨ GoMap.has m name = true
  · rw [visitAttribute_skip lib rng (m, d) name attr hs] at h
    injection h with h
    subst h
    refine ⟨fun k hk => hk, fun hr => ?_, fun x hx => Or.inl hx⟩
    rcases hs with hs | hs
    · simp [hs] at hr
    · exact hs
  · have hr : attr.IsRequired = true := by
      cases hreq : attr.IsRequired
      · exact absurd (Or.inl hreq) hs
      · rfl
    have hm : GoMap.has m name = false := by
      cases hhas : GoMap.has m name
      · rfl
      · exact absurd (Or.inr hhas) hs
    cases m with
    | none =>
      rw [visitAttribute_nil_map lib rng d name attr hr] at h
      cases h
    | some es =>
      rw [visitAttribute_missing lib rng es d name attr hr hm] at h
      injection h with h
      subst h
      refine ⟨fun k hk => ?_, fun _ => ?_, fun x hx => ?_⟩
      · simp only [GoMap.has_set]
        simp [hk]
      · simp [GoMap.has_set]
      · simp only [Slice.append, Slice.elems, List.mem_append, List.mem_singleton] at hx
        rcases hx with hx | hx
        · exact Or.inl hx
        · exact Or.inr ⟨hx, hr, hm⟩

/-! ## The loop of `Visit` -/

theorem visitAttributes_present (lib : Lib) (rng : Range)
    (st : GoMap Attribute × Slice Diagnostic) (entries : Entries AttributeSchema)
    (h : ∀ e ∈ entries, e.2.IsRequired = true → st.1.has e.1 = true) :
    visitAttributes lib rng st entries = Outcome.returns st := by
  induction entries with
  | nil => rfl
  | cons e rest ih =>
    obtain ⟨name, attr⟩ := e
    have hskip : attr.IsRequired = false ∨ st.1.has name = true := by
      cases hreq : attr.IsRequired
      · exact Or.inl rfl
      · exact Or.inr (h (name, attr) (List.mem_cons_self _ _) hreq)
    simp only [visitAttributes, visitAttribute_skip lib rng st name attr hskip]
    exact ih (fun e he => h e (List.mem_cons_of_mem _ he))

/-- What the loop does to the state, whenever it returns. -/
theorem visitAttributes_returns (lib : Lib) (rng : Range) (entries : Entries AttributeSchema) :
    ∀ (st st' : GoMap Attribute × Slice Diagnostic),
      visitAttributes lib rng st entries = Outcome.returns st' →
      (∀ k, st.1.has k = true → st'.1.has k = true) ∧
      (∀ e ∈ entries, e.2.IsRequired = true → st'.1.has e.1 = true) ∧
      (∀ x ∈ st'.2.elems, x ∈ st.2.elems ∨
        ∃ e ∈ entries, x = missingDiag lib rng e.1 ∧ e.2.IsRequired = true ∧
          st.1.has e.1 = false) := by
  induction entries with
  | nil =>
    intro st st' h
    simp only [visitAttributes] at h
    injection h with h
    subst h
    exact ⟨fun k hk => hk, fun e he => absurd he (List.not_mem_nil e), fun x hx => Or.inl hx⟩
  | cons e rest ih =>
    intro st st' h
    obtain ⟨name, attr⟩ := e
    simp only [visitAttributes] at h
    cases hstep : visitAttribute lib rng st name attr with
    | panics msg => rw [hstep] at h; cases h
    | returns mid =>
      rw [hstep] at h
      obtain ⟨k1, r1, d1⟩ := visitAttribute_returns lib rng st mid name attr hstep
      obtain ⟨k2, r2, d2⟩ := ih mid st' h
      refine ⟨fun k hk => k2 k (k1 k hk), fun e he hreq => ?_, fun x hx => ?_⟩
      · rcases List.mem_cons.mp he with he | he
        · subst he
          exact k2 name (r1 hreq)
        · exact r2 e he hreq
      · rcases d2 x hx with hx | ⟨e, he, hxe, hreq, hmiss⟩
        · rcases d1 x hx with hx | ⟨hxe, hreq, hmiss⟩
          · exact Or.inl hx
          · exact Or.inr ⟨(name, attr), List.mem_cons_self _ _, hxe, hreq, hmiss⟩
        · refine Or.inr ⟨e, List.mem_cons_of_mem _ he, hxe, hreq, ?_⟩
          cases hhas : GoMap.has st.1 e.1
          · rfl
          · rw [k1 e.1 hhas] at hmiss
            cases hmiss

theorem missingNames_set (m : Entries Attribute) (name : String) (v : Attribute)
    (entries : Entries AttributeSchema) (h : name ∉ entries.map Prod.fst) :
    missingNames (some (Entries.set m name v)) entries = missingNames (some m) entries := by
  unfold missingNames
  congr 1
  apply List.filter_congr
  intro e he
  have hne : ¬ name = e.1 := fun hEq => h (hEq ▸ List.mem_map_of_mem Prod.fst he)
  simp [GoMap.has_set, hne]

/-- On a body whose attribute map is not nil, the loop returns: it stores a
placeholder for each missing required name and appends the diagnostic of each,
in the order of the schema entries. -/
theorem visitAttributes_some (lib : Lib) (rng : Range) (entries : Entries AttributeSchema) :
    ∀ (m : Entries Attribute) (d : Slice Diagnostic), (entries.map Prod.fst).Nodup →
      visitAttributes lib rng (some m, d) entries =
        Outcome.returns (some (withPlaceholders m (missingNames (some m) entries)),
          ((missingNames (some m) entries).map (missingDiag lib rng)).foldl Slice.append d) := by
  induction entries with
  | nil => intro m d _; rfl
  | cons e rest ih =>
    intro m d hnd
    obtain ⟨name, attr⟩ := e
    simp only [List.map_cons, List.nodup_cons] at hnd
    obtain ⟨hnotin, hrest⟩ := hnd
    by_cases hmiss : (attr.IsRequired && !GoMap.has (some m) name) = true
    · have hr : attr.IsRequired = true := by
        cases hreq : attr.IsRequired
        · simp [hreq] at hmiss
        · rfl
      have hm : GoMap.has (some m) name = false := by
        cases hhas : GoMap.has (some m) name
        · rfl
        · simp [hhas] at hmiss
      have hnames : missingNames (some m) ((name, attr) :: rest) =
          name :: missingNames (some m) rest := by
        simp [missingNames, List.filter_cons, hr, hm]
      simp only [visitAttributes, visitAttribute_missing lib rng m d name attr hr hm]
      rw [ih _ _ hrest, missingNames_set m name _ rest hnotin, hnames]
      rfl
    · have hskip : attr.IsRequired = false ∨ GoMap.has (some m) name = true := by
        cases hreq : attr.IsRequired
        · exact Or.inl rfl
        · cases hhas : GoMap.has (some m) name
          · simp [hreq, hhas] at hmiss
          · exact Or.inr rfl
      have hnames : missingNames (some m) ((name, attr) :: rest) =
          missingNames (some m) rest := by
        rcases hskip with h | h
        · simp [missingNames, List.filter_cons, h]
        · simp [missingNames, List.filter_cons, h]
      simp only [visitAttributes, visitAttribute_skip lib rng (some m, d) name attr hskip]
      rw [ih _ _ hrest, hnames]

/-- On a body whose attribute map is nil, the loop panics at the first required
entry, and returns the state untouched when no entry is required. -/
theorem visitAttributes_nil_map (lib : Lib) (rng : Range) (d : Slice Diagnostic)
    (entries : Entries AttributeSchema) :
    visitAttributes lib rng (none, d) entries =
      if entries.any (fun e => e.2.IsRequired) then
        Outcome.panics "assignment to entry in nil map"
      else Outcome.returns (none, d) := by
  induction entries with
  | nil => rfl
  | cons e rest ih =>
    obtain ⟨name, attr⟩ := e
    cases hreq : attr.IsRequired
    · simp only [visitAttributes,
        visitAttribute_skip lib rng (none, d) name attr (Or.inl hreq), ih]
      simp only [List.any_cons, hreq, Bool.false_or]
    · simp only [visitAttributes, visitAttribute_nil_map lib rng d name attr hreq]
      simp only [List.any_cons, hreq, Bool.true_or, if_true]

theorem Slice.elems_foldl_append {α : Type} (l : List α) :
    ∀ d : Slice α, (l.foldl Slice.append d).elems = d.elems ++ l := by
  induction l with
  | nil => intro d; simp
  | cons x rest ih =>
    intro d
    rw [List.foldl_cons, ih]
    simp [Slice.append, Slice.elems]

theorem missingNames_nodup (attrs : GoMap Attribute) (entries : Entries AttributeSchema)
    (h : (entries.map Prod.fst).Nodup) : (missingNames attrs entries).Nodup := by
  unfold missingNames
  exact List.Nodup.sublist (List.Sublist.map Prod.fst (List.filter_sublist entries)) h

theorem mem_missingNames (attrs : GoMap Attribute) (entries : Entries AttributeSchema)
    (name : String) :
    name ∈ missingNames attrs entries ↔
      (∃ attr, (name, attr) ∈ entries ∧ attr.IsRequired = true) ∧ name ∉ attrs.keys := by
  unfold missingNames
  simp only [List.mem_map, List.mem_filter, Bool.and_eq_true, Bool.not_eq_true']
  constructor
  · rintro ⟨⟨n, a⟩, ⟨he, hr, hm⟩, rfl⟩
    refine ⟨⟨a, he, hr⟩, fun hk => ?_⟩
    rw [(GoMap.has_iff attrs n).mpr hk] at hm
    cases hm
  · rintro ⟨⟨a, he, hr⟩, hk⟩
    refine ⟨(name, a), ⟨he, hr, ?_⟩, rfl⟩
    cases hhas : GoMap.has attrs name
    · rfl
    · exact absurd ((GoMap.has_iff attrs name).mp hhas) hk

theorem visitAttributes_some_returns (lib : Lib) (rng : Range)
    (entries : Entries AttributeSchema) :
    ∀ (m : Entries Attribute) (d : Slice Diagnostic),
      ∃ m' d', visitAttributes lib rng (some m, d) entries = Outcome.returns (some m', d') := by
  induction entries with
  | nil => intro m d; exact ⟨m, d, rfl⟩
  | cons e rest ih =>
    intro m d
    obtain ⟨name, attr⟩ := e
    by_cases hskip : attr.IsRequired = false ∨ GoMap.has (some m) name = true
    · simp only [visitAttributes, visitAttribute_skip lib rng (some m, d) name attr hskip]
      exact ih m d
    · have hr : attr.IsRequired = true := by
        cases hreq : attr.IsRequired
        · exact absurd (Or.inl hreq) hskip
        · rfl
      have hm : GoMap.has (some m) name = false := by
        cases hhas : GoMap.has (some m) name
        · rfl
        · exact absurd (Or.inr hhas) hskip
      simp only [visitAttributes, visitAttribute_missing lib rng m d name attr hr hm]
      exact ih _ _

theorem withPlaceholders_get (names : List String) :
    ∀ (m : Entries Attribute) (k : String),
      Entries.get (withPlaceholders m names) k =
        if k ∈ names then some (placeholder k) else Entries.get m k := by
  induction names with
  | nil => intro m k; simp [withPlaceholders]
  | cons n rest ih =>
    intro m k
    have hfold : withPlaceholders m (n :: rest) =
        withPlaceholders (Entries.set m n (placeholder n)) rest := rfl
    rw [hfold, ih, Entries.get_set]
    by_cases h1 : k ∈ rest
    · simp [h1]
    · by_cases h2 : n = k
      · subst h2
        simp
      · have h3 : ¬ k = n := fun h => h2 h.symm
        simp [h1, h2, h3]

/-! ## `Visit` on a body -/

theorem Visit_block_unfold (lib : Lib) (ctx : Context) (b : Block) (nodeSchema : Schema)
    (h : HasUnknownRequiredAttributes ctx = false) :
    Visit lib ctx (Node.Block b) nodeSchema =
      Outcome.returns
        (if b.Type_ = "provider" ∧ ((BlockNestingLevel ctx).2 = true ∧
            (BlockNestingLevel ctx).1 = 0)
          then WithUnknownRequiredAttributes ctx else ctx, none, Node.Block b) := by
  simp [Visit, h]

theorem Visit_body_unfold (lib : Lib) (ctx : Context) (b : Body)
    (entries : Entries AttributeSchema) (h : HasUnknownRequiredAttributes ctx = false) :
    Visit lib ctx (Node.Body b) (Schema.BodySchema { Attributes := some entries }) =
      match visitAttributes lib b.SrcRange (b.Attributes, none) entries with
      | Outcome.panics e => Outcome.panics e
      | Outcome.returns st =>
        Outcome.returns (ctx, st.2, Node.Body { b with Attributes := st.1 }) := by
  simp [Visit, h]

/-- On a body whose attribute map is not nil, `Visit` returns the diagnostics of
the missing required names, in the order of the schema entries, and leaves the
body with a placeholder stored for each of them. -/
theorem Visit_body_some (lib : Lib) (ctx : Context) (m : Entries Attribute) (rng : Range)
    (entries : Entries AttributeSchema) (h : HasUnknownRequiredAttributes ctx = false)
    (hnd : (entries.map Prod.fst).Nodup) :
    Visit lib ctx (Node.Body { Attributes := some m, SrcRange := rng })
        (Schema.BodySchema { Attributes := some entries }) =
      Outcome.returns (ctx,
        ((missingNames (some m) entries).map (missingDiag lib rng)).foldl Slice.append none,
        Node.Body { Attributes := some (withPlaceholders m (missingNames (some m) entries)),
                    SrcRange := rng }) := by
  rw [Visit_body_unfold lib ctx _ entries h]
  simp only [visitAttributes_some lib rng entries m none hnd]

/-- On a body whose attribute map is nil, `Visit` panics as soon as the schema
has a required attribute. -/
theorem Visit_body_nil_map (lib : Lib) (ctx : Context) (rng : Range)
    (entries : Entries AttributeSchema) (h : HasUnknownRequiredAttributes ctx = false)
    (hreq : entries.any (fun e => e.2.IsRequired) = true) :
    Visit lib ctx (Node.Body { Attributes := none, SrcRange := rng })
        (Schema.BodySchema { Attributes := some entries }) =
      Outcome.panics "assignment to entry in nil map" := by
  rw [Visit_body_unfold lib ctx _ entries h]
  simp only [visitAttributes_nil_map, hreq, if_true]

/-- Completeness on a body whose attribute map is not nil: `Visit` returns one
diagnostic for each name that the schema marks required and that is no key of
the body, and none for any other name. -/
theorem Visit_body_complete (lib : Lib) (ctx : Context) (m : Entries Attribute) (rng : Range)
    (entries : Entries AttributeSchema) (h : HasUnknownRequiredAttributes ctx = false)
    (hnd : (entries.map Prod.fst).Nodup) :
    ∃ (diags : Slice Diagnostic) (node : Node) (names : List String),
      Visit lib ctx (Node.Body { Attributes := some m, SrcRange := rng })
        (Schema.BodySchema { Attributes := some entries }) =
        Outcome.returns (ctx, diags, node) ∧
      diags.elems = names.map (missingDiag lib rng) ∧ names.Nodup ∧
      (∀ name, name ∈ names ↔
        (∃ attr, (name, attr) ∈ entries ∧ attr.IsRequired = true) ∧
          name ∉ GoMap.keys (some m)) ∧
      diags.len = names.length := by
  refine ⟨_, _, missingNames (some m) entries, Visit_body_some lib ctx m rng entries h hnd,
    ?_, missingNames_nodup _ _ hnd, mem_missingNames _ _, ?_⟩
  · rw [Slice.elems_foldl_append]
    rfl
  · unfold Slice.len
    rw [Slice.elems_foldl_append]
    simp [Slice.elems]

/-- Self-heal on a body whose attribute map is not nil: after `Visit` the keys
of the body are the keys it had and the required names of the schema; an
attribute that was present is unchanged, and every other entry is the
placeholder of its key, a null literal. -/
theorem Visit_body_heals (lib : Lib) (ctx : Context) (m : Entries Attribute) (rng : Range)
    (entries : Entries AttributeSchema) (h : HasUnknownRequiredAttributes ctx = false)
    (hnd : (entries.map Prod.fst).Nodup) :
    ∃ diags m',
      Visit lib ctx (Node.Body { Attributes := some m, SrcRange := rng })
        (Schema.BodySchema { Attributes := some entries }) =
        Outcome.returns (ctx, diags, Node.Body { Attributes := some m', SrcRange := rng }) ∧
      (∀ k, k ∈ GoMap.keys (some m') ↔
        k ∈ GoMap.keys (some m) ∨ ∃ attr, (k, attr) ∈ entries ∧ attr.IsRequired = true) ∧
      (∀ k, k ∈ GoMap.keys (some m) → GoMap.get (some m') k = GoMap.get (some m) k) ∧
      (∀ k, k ∉ GoMap.keys (some m) → k ∈ GoMap.keys (some m') →
        GoMap.get (some m') k =
          some { Name := k, Expr := Expression.LiteralValueExpr (CtyValue.null CtyType.zero) }) := by
  refine ⟨_, _, Visit_body_some lib ctx m rng entries h hnd, ?_, ?_, ?_⟩
  · intro k
    rw [← GoMap.has_iff, ← GoMap.has_iff]
    simp only [GoMap.has, GoMap.get, withPlaceholders_get]
    by_cases hk : k ∈ missingNames (some m) entries
    · have hk' := (mem_missingNames _ _ k).mp hk
      simp only [hk, if_true, Option.isSome_some, true_iff]
      exact Or.inr hk'.1
    · simp only [hk, if_false]
      constructor
      · intro hs; exact Or.inl hs
      · rintro (hs | hreq)
        · exact hs
        · cases hhas : (Entries.get m k).isSome
          · exfalso
            apply hk
            refine (mem_missingNames _ _ k).mpr ⟨hreq, fun hkey => ?_⟩
            have := (GoMap.has_iff (some m) k).mpr hkey
            simp only [GoMap.has, GoMap.get] at this
            rw [this] at hhas
            cases hhas
          · rfl
  · intro k hk
    have hnot : k ∉ missingNames (some m) entries :=
      fun hmem => ((mem_missingNames _ _ k).mp hmem).2 hk
    simp only [GoMap.get, withPlaceholders_get, hnot, if_false]
  · intro k hk hk'
    have hmem : k ∈ missingNames (some m) entries := by
      by_contra hnot
      rw [← GoMap.has_iff] at hk'
      simp only [GoMap.has, GoMap.get, withPlaceholders_get, hnot, if_false] at hk'
      exact hk ((GoMap.has_iff (some m) k).mp hk')
    simp only [GoMap.get, withPlaceholders_get, hmem, if_true]
    rfl

/-! ## The claims about `Visit` -/

/-- C1, evaluated on a body whose attribute map is nil: the schema requires `a`,
`b` and `c`, the body has none of them, and `Visit` panics on storing the first
placeholder instead of returning one diagnostic for each of the three names. -/
theorem Visit_nil_map_missing_panics :
    missingNames none [("a", ⟨true⟩), ("b", ⟨true⟩), ("c", ⟨true⟩)] = ["a", "b", "c"] ∧
    Visit plainLib []
        (Node.Body { Attributes := none, SrcRange := ⟨"main.tf", ⟨1, 1, 0⟩, ⟨1, 11, 10⟩⟩ })
        (Schema.BodySchema
          { Attributes := some [("a", ⟨true⟩), ("b", ⟨true⟩), ("c", ⟨true⟩)] }) =
      Outcome.panics "assignment to entry in nil map" := by
  decide

/-- C2, evaluated on a body whose attribute map is nil: the schema requires
`source`, and `Visit` returns no result, so no body is left whose keys hold
`source`; the write of the placeholder panics. -/
theorem Visit_nil_map_heal_panics :
    ¬ ∃ r, Visit plainLib []
        (Node.Body { Attributes := none, SrcRange := ⟨"main.tf", ⟨1, 1, 0⟩, ⟨1, 11, 10⟩⟩ })
        (Schema.BodySchema
          { Attributes := some [("source", ⟨true⟩), ("version", ⟨false⟩)] }) =
      Outcome.returns r := by
  rintro ⟨r, hr⟩
  rw [Visit_body_nil_map plainLib [] _ _ (by decide) (by decide)] at hr
  cases hr

/-- Idempotence of the self-heal where the first visit returns: for an
unsuppressed context, a body and a body schema, the first `Visit` returns
whenever the attribute map of the body is not nil, and whenever the first
`Visit` returns, it returns the context it was given, and a second `Visit` on
the body as the first one left it returns that context, no diagnostic, and the
body unchanged. -/
theorem Visit_idempotent (lib : Lib) (ctx : Context) (b : Body) (s : BodySchema)
    (h : HasUnknownRequiredAttributes ctx = false) :
    (b.Attributes ≠ none → ∃ diags node,
      Visit lib ctx (Node.Body b) (Schema.BodySchema s) = Outcome.returns (ctx, diags, node)) ∧
    ∀ ctx1 diags1 node1,
      Visit lib ctx (Node.Body b) (Schema.BodySchema s) = Outcome.returns (ctx1, diags1, node1) →
      ctx1 = ctx ∧
      Visit lib ctx node1 (Schema.BodySchema s) = Outcome.returns (ctx, none, node1) := by
  obtain ⟨attrs, rng⟩ := b
  obtain ⟨sattrs⟩ := s
  cases sattrs with
  | none =>
    refine ⟨fun _ => ⟨none, Node.Body ⟨attrs, rng⟩, by simp [Visit, h]⟩, ?_⟩
    intro ctx1 diags1 node1 h1
    simp only [Visit, h] at h1
    injection h1 with h1
    simp only [Prod.mk.injEq] at h1
    obtain ⟨hc, -, hn⟩ := h1
    subst hc hn
    exact ⟨rfl, by simp [Visit, h]⟩
  | some entries =>
    constructor
    · intro hne
      cases attrs with
      | none => exact absurd rfl hne
      | some m =>
        obtain ⟨m', d', hloop⟩ := visitAttributes_some_returns lib rng entries m none
        exact ⟨d', Node.Body ⟨some m', rng⟩, by
          rw [Visit_body_unfold lib ctx _ entries h]; simp only [hloop]⟩
    · intro ctx1 diags1 node1 h1
      rw [Visit_body_unfold lib ctx _ entries h] at h1
      cases hloop : visitAttributes lib rng (attrs, none) entries with
      | panics msg => simp only [hloop] at h1; cases h1
      | returns st =>
        simp only [hloop] at h1
        injection h1 with h1
        simp only [Prod.mk.injEq] at h1
        obtain ⟨hc, -, hn⟩ := h1
        subst hc hn
        refine ⟨rfl, ?_⟩
        obtain ⟨-, hreq, -⟩ := visitAttributes_returns lib rng entries _ _ hloop
        rw [Visit_body_unfold lib ctx _ entries h]
        simp only [visitAttributes_present lib rng (st.1, none) entries hreq]

/-- Idempotence at a body with `b` and a schema that requires `a`, `b` and `c`:
the first visit reports `a` and `c`, the second reports nothing and changes
nothing. -/
theorem Visit_idempotent_witness :
    Visit plainLib []
      (Node.Body
        { Attributes := some [("b", ⟨"b", Expression.other "1"⟩), ("a", placeholder "a"),
                              ("c", placeholder "c")],
          SrcRange := ⟨"main.tf", ⟨1, 1, 0⟩, ⟨3, 2, 20⟩⟩ })
      (Schema.BodySchema
        { Attributes := some [("a", ⟨true⟩), ("b", ⟨true⟩), ("c", ⟨true⟩), ("d", ⟨false⟩)] }) =
    Outcome.returns ([], none,
      Node.Body
        { Attributes := some [("b", ⟨"b", Expression.other "1"⟩), ("a", placeholder "a"),
                              ("c", placeholder "c")],
          SrcRange := ⟨"main.tf", ⟨1, 1, 0⟩, ⟨3, 2, 20⟩⟩ }) :=
  ((Visit_idempotent plainLib []
      { Attributes := some [("b", ⟨"b", Expression.other "1"⟩)],
        SrcRange := ⟨"main.tf", ⟨1, 1, 0⟩, ⟨3, 2, 20⟩⟩ }
      { Attributes := some [("a", ⟨true⟩), ("b", ⟨true⟩), ("c", ⟨true⟩), ("d", ⟨false⟩)] }
      (by decide)).2 []
    (some [missingDiag plainLib ⟨"main.tf", ⟨1, 1, 0⟩, ⟨3, 2, 20⟩⟩ "a",
           missingDiag plainLib ⟨"main.tf", ⟨1, 1, 0⟩, ⟨3, 2, 20⟩⟩ "c"])
    _ (by decide)).2

/-- C3, evaluated on a body whose attribute map is nil: the schema requires
`name`; the first `Visit` panics on storing the placeholder, before anything is
written, so the body is left with its nil map, and the second `Visit` on that
body is the same call: it panics again and returns no result, where the claim
wants it to return no diagnostic and the body unchanged. -/
theorem Visit_nil_map_rerun_panics :
    Visit plainLib []
        (Node.Body { Attributes := none, SrcRange := ⟨"main.tf", ⟨4, 1, 30⟩, ⟨4, 9, 38⟩⟩ })
        (Schema.BodySchema { Attributes := some [("name", ⟨true⟩)] }) =
      Outcome.panics "assignment to entry in nil map" ∧
    ¬ ∃ ctx1 node1, Visit plainLib []
        (Node.Body { Attributes := none, SrcRange := ⟨"main.tf", ⟨4, 1, 30⟩, ⟨4, 9, 38⟩⟩ })
        (Schema.BodySchema { Attributes := some [("name", ⟨true⟩)] }) =
      Outcome.returns (ctx1, none, node1) := by
  have hp := Visit_body_nil_map plainLib [] ⟨"main.tf", ⟨4, 1, 30⟩, ⟨4, 9, 38⟩⟩
    [("name", ⟨true⟩)] (by decide) (by decide)
  refine ⟨hp, ?_⟩
  rintro ⟨ctx1, node1, hr⟩
  rw [hp] at hr
  cases hr

/-- C4, suppression is a hard override: when the context carries the
suppression flag, `Visit` returns, for every node and every schema, the same
context, no diagnostic, and the node unchanged; it does not panic. -/
theorem Visit_suppressed (lib : Lib) (ctx : Context) (node : Node) (nodeSchema : Schema)
    (h : HasUnknownRequiredAttributes ctx = true) :
    Visit lib ctx node nodeSchema = Outcome.returns (ctx, none, node) := by
  simp [Visit, h]

/-- C4 at a suppressed context, a body with a nil attribute map and a schema
that is no body schema. -/
theorem Visit_suppressed_witness :
    Visit plainLib (WithUnknownRequiredAttributes [])
      (Node.Body { Attributes := none, SrcRange := ⟨"main.tf", ⟨1, 1, 0⟩, ⟨1, 11, 10⟩⟩ })
      (Schema.other "BlockSchema") =
    Outcome.returns (WithUnknownRequiredAttributes [], none,
      Node.Body { Attributes := none, SrcRange := ⟨"main.tf", ⟨1, 1, 0⟩, ⟨1, 11, 10⟩⟩ }) :=
  Visit_suppressed plainLib (WithUnknownRequiredAttributes []) _ _ (by decide)

/-- C5, blocks: for an unsuppressed context and a block, `Visit` returns no
diagnostic and leaves the block as it is; the returned context carries the
suppression flag exactly when the type of the block is `provider` and the
nesting level of the context is known and 0, in which case it is the context
with the flag added, and in every other case it is the context given. -/
theorem Visit_block (lib : Lib) (ctx : Context) (b : Block) (nodeSchema : Schema)
    (h : HasUnknownRequiredAttributes ctx = false) :
    ∃ ctx', Visit lib ctx (Node.Block b) nodeSchema = Outcome.returns (ctx', none, Node.Block b) ∧
      (HasUnknownRequiredAttributes ctx' = true ↔
        (b.Type_ = "provider" ∧ (BlockNestingLevel ctx).2 = true ∧
          (BlockNestingLevel ctx).1 = 0)) ∧
      ((b.Type_ = "provider" ∧ (BlockNestingLevel ctx).2 = true ∧
          (BlockNestingLevel ctx).1 = 0) → ctx' = WithUnknownRequiredAttributes ctx) ∧
      (¬ (b.Type_ = "provider" ∧ (BlockNestingLevel ctx).2 = true ∧
          (BlockNestingLevel ctx).1 = 0) → ctx' = ctx) := by
  by_cases hc : b.Type_ = "provider" ∧ (BlockNestingLevel ctx).2 = true ∧
      (BlockNestingLevel ctx).1 = 0
  · refine ⟨WithUnknownRequiredAttributes ctx, ?_, ?_, fun _ => rfl, fun hn => absurd hc hn⟩
    · rw [Visit_block_unfold lib ctx b nodeSchema h, if_pos hc]
    · constructor
      · intro _; exact hc
      · intro _
        simp [HasUnknownRequiredAttributes, WithUnknownRequiredAttributes, WithValue,
          Context.Value]
  · refine ⟨ctx, ?_, ?_, fun hy => absurd hy hc, fun _ => rfl⟩
    · rw [Visit_block_unfold lib ctx b nodeSchema h, if_neg hc]
    · constructor
      · intro hs
        rw [h] at hs
        cases hs
      · intro hy; exact absurd hy hc

/-- C5 at a top-level `provider` block: the returned context is suppressed. -/
theorem Visit_block_witness :
    ∃ ctx', Visit plainLib [(CtxKey.blockNestingLevelCtxKey, CtxValue.int 0)]
        (Node.Block ⟨"provider", ["aws"]⟩) Schema.nil =
          Outcome.returns (ctx', none, Node.Block ⟨"provider", ["aws"]⟩) ∧
      HasUnknownRequiredAttributes ctx' = true := by
  obtain ⟨ctx', hv, hiff, -, -⟩ := Visit_block plainLib
    [(CtxKey.blockNestingLevelCtxKey, CtxValue.int 0)] ⟨"provider", ["aws"]⟩ Schema.nil
    (by decide)
  exact ⟨ctx', hv, hiff.mpr (by decide)⟩

/-- C6, nothing to check: for an unsuppressed context and a body, when the
schema is nil, or a body schema whose attribute map is nil or empty, `Visit`
returns the same context, no diagnostic, and the body unchanged; it does not
panic. -/
theorem Visit_body_nothing_to_check (lib : Lib) (ctx : Context) (b : Body) (nodeSchema : Schema)
    (h : HasUnknownRequiredAttributes ctx = false)
    (hs : nodeSchema = Schema.nil ∨ nodeSchema = Schema.BodySchema { Attributes := none } ∨
      nodeSchema = Schema.BodySchema { Attributes := some [] }) :
    Visit lib ctx (Node.Body b) nodeSchema = Outcome.returns (ctx, none, Node.Body b) := by
  rcases hs with hs | hs | hs
  · subst hs; simp [Visit, h]
  · subst hs; simp [Visit, h]
  · subst hs; simp [Visit, h, visitAttributes]

/-- C6 at a body with a nil attribute map and a schema with an empty map. -/
theorem Visit_body_nothing_to_check_witness :
    Visit plainLib []
      (Node.Body { Attributes := none, SrcRange := ⟨"main.tf", ⟨1, 1, 0⟩, ⟨1, 11, 10⟩⟩ })
      (Schema.BodySchema { Attributes := some [] }) =
    Outcome.returns ([], none,
      Node.Body { Attributes := none, SrcRange := ⟨"main.tf", ⟨1, 1, 0⟩, ⟨1, 11, 10⟩⟩ }) :=
  Visit_body_nothing_to_check plainLib [] _ _ (by decide) (Or.inr (Or.inr rfl))

/-! ## Quoting of names in messages -/

theorem appendEscapedRune_plain (lib : Lib) (r : Char)
    (h : 0x20 ≤ r.toNat ∧ r.toNat ≤ 0x7E ∧ r ≠ dquote ∧ r ≠ backslash) :
    appendEscapedRune lib r = [r] := by
  obtain ⟨h1, h2, h3, h4⟩ := h
  have hp : IsPrint lib r = true := by
    have h5 : r.toNat ≤ 0xFF := by omega
    simp [IsPrint, h5, h1, h2]
  simp [appendEscapedRune, h3, h4, hp]

theorem quoteRunes_plain (lib : Lib) (l : List Char)
    (h : ∀ r ∈ l, 0x20 ≤ r.toNat ∧ r.toNat ≤ 0x7E ∧ r ≠ dquote ∧ r ≠ backslash) :
    quoteRunes lib l = l := by
  induction l with
  | nil => rfl
  | cons r rest ih =>
    simp only [quoteRunes, appendEscapedRune_plain lib r (h r (List.mem_cons_self _ _)),
      ih (fun x hx => h x (List.mem_cons_of_mem _ hx))]
    rfl

theorem Quote_plain (lib : Lib) (name : String) (h : plainName name = true) :
    Quote lib name = "\"" ++ name ++ "\"" := by
  have h' : ∀ r ∈ name.data,
      0x20 ≤ r.toNat ∧ r.toNat ≤ 0x7E ∧ r ≠ dquote ∧ r ≠ backslash := by
    intro r hr
    have := List.all_eq_true.mp h r hr
    simpa [and_assoc] using this
  unfold Quote
  rw [quoteRunes_plain lib name.data h']
  apply String.ext
  simp [dquote]

theorem summaryOf_plain (lib : Lib) (name : String) (h : plainName name = true) :
    summaryOf lib name = "Required attribute \"" ++ name ++ "\" not specified" := by
  unfold summaryOf
  rw [Quote_plain lib name h]
  apply String.ext
  simp

theorem detailOf_plain (lib : Lib) (name : String) (h : plainName name = true) :
    detailOf lib name = "An attribute named \"" ++ name ++ "\" is required here" := by
  unfold detailOf
  rw [Quote_plain lib name h]
  apply String.ext
  simp

/-! ## The diagnostics of `Visit` and the fix builder -/

/-- C7 as stated fails on a name that holds a double quote: for the required
name `a"b` the summary and the detail carry the name as `%q` prints it, with the
inner quote escaped, not the bare name between two double quotes. -/
theorem Visit_summary_escapes_name :
    Visit plainLib []
        (Node.Body { Attributes := some [], SrcRange := ⟨"main.tf", ⟨1, 1, 0⟩, ⟨2, 2, 12⟩⟩ })
        (Schema.BodySchema { Attributes := some [("a\"b", ⟨true⟩)] }) =
      Outcome.returns ([],
        some [{ Severity := DiagError,
                Summary := "Required attribute \"a\\\"b\" not specified",
                Detail := "An attribute named \"a\\\"b\" is required here",
                Subject := some ⟨"main.tf", ⟨1, 1, 0⟩, ⟨2, 2, 12⟩⟩,
                CodeActions := some
                  [{ Message := "Add missing attribute", Kind := "quickfix",
                     Edits := some [{ Range := ⟨"main.tf", ⟨2, 1, 12⟩, ⟨2, 1, 12⟩⟩,
                                      NewText := "a\"b = null\n" }] }] }],
        Node.Body { Attributes := some [("a\"b", placeholder "a\"b")],
                    SrcRange := ⟨"main.tf", ⟨1, 1, 0⟩, ⟨2, 2, 12⟩⟩ }) ∧
    "Required attribute \"a\\\"b\" not specified" ≠
      "Required attribute \"" ++ "a\"b" ++ "\" not specified" ∧
    "An attribute named \"a\\\"b\" is required here" ≠
      "An attribute named \"" ++ "a\"b" ++ "\" is required here" := by
  decide

/-- C7, amended: every diagnostic that `Visit` returns comes from a body and a
name that the body schema marks required and that is no key of the body; it has
severity Error (so never Warning), the summary `Required attribute Q not
specified` and the detail `An attribute named Q is required here`, where `Q` is
the name as `%q` prints it, which is the name between two double quotes when the
name is printable ASCII without double quote and backslash; its subject is the
source range of the body, and it carries exactly one fix. -/
theorem Visit_diagnostics_shape (lib : Lib) (ctx ctx' : Context) (node node' : Node)
    (nodeSchema : Schema) (diags : Slice Diagnostic)
    (h : Visit lib ctx node nodeSchema = Outcome.returns (ctx', diags, node')) :
    ∀ d ∈ diags.elems, ∃ b entries name attr,
      node = Node.Body b ∧ nodeSchema = Schema.BodySchema { Attributes := some entries } ∧
      (name, attr) ∈ entries ∧ attr.IsRequired = true ∧ b.Attributes.has name = false ∧
      d.Severity = DiagError ∧ d.Severity ≠ DiagWarning ∧
      d.Summary = "Required attribute " ++ Quote lib name ++ " not specified" ∧
      d.Detail = "An attribute named " ++ Quote lib name ++ " is required here" ∧
      (plainName name = true →
        d.Summary = "Required attribute \"" ++ name ++ "\" not specified" ∧
        d.Detail = "An attribute named \"" ++ name ++ "\" is required here") ∧
      d.Subject = some b.SrcRange ∧
      ∃ fix, d.CodeActions = some [fix] := by
  intro d hd
  have hnil : ∀ (c : Context) (n : Node),
      Outcome.returns (c, (none : Slice Diagnostic), n) = Outcome.returns (ctx', diags, node') →
      False := by
    intro c n hEq
    injection hEq with hEq
    simp only [Prod.mk.injEq] at hEq
    obtain ⟨-, hdg, -⟩ := hEq
    subst hdg
    simp [Slice.elems] at hd
  cases hsup : HasUnknownRequiredAttributes ctx with
  | true => exact (hnil ctx node (by rw [← h]; simp [Visit, hsup])).elim
  | false =>
    cases node with
    | Block b =>
      exact (hnil _ (Node.Block b) (by rw [← h, Visit_block_unfold lib ctx b nodeSchema hsup])).elim
    | Attribute a =>
      exact (hnil ctx (Node.Attribute a) (by rw [← h]; simp [Visit, hsup])).elim
    | other t => exact (hnil ctx (Node.other t) (by rw [← h]; simp [Visit, hsup])).elim
    | Body b =>
      cases nodeSchema with
      | nil => exact (hnil ctx (Node.Body b) (by rw [← h]; simp [Visit, hsup])).elim
      | other t => simp [Visit, hsup] at h
      | BodySchema s =>
        obtain ⟨sattrs⟩ := s
        cases sattrs with
        | none => exact (hnil ctx (Node.Body b) (by rw [← h]; simp [Visit, hsup])).elim
        | some entries =>
          rw [Visit_body_unfold lib ctx b entries hsup] at h
          cases hloop : visitAttributes lib b.SrcRange (b.Attributes, none) entries with
          | panics msg => simp only [hloop] at h; cases h
          | returns st =>
            simp only [hloop] at h
            injection h with h
            simp only [Prod.mk.injEq] at h
            obtain ⟨-, hdg, -⟩ := h
            subst hdg
            obtain ⟨-, -, hdiag⟩ := visitAttributes_returns lib b.SrcRange entries _ _ hloop
            rcases hdiag d hd with hold | ⟨e, he, hde, hreq, hmiss⟩
            · simp [Slice.elems] at hold
            · subst hde
              have hsev : (missingDiag lib b.SrcRange e.1).Severity ≠ DiagWarning := by
                simp [missingDiag, DiagError, DiagWarning]
              exact ⟨b, entries, e.1, e.2, rfl, rfl, he, hreq, hmiss, rfl, hsev, rfl, rfl,
                fun hp => ⟨summaryOf_plain lib e.1 hp, detailOf_plain lib e.1 hp⟩, rfl, _, rfl⟩

/-- C7 at a body without attributes and a schema that requires `ami`: the
diagnostic returned is an Error whose summary and detail carry `"ami"`, on the
range of the body, with one fix. -/
theorem Visit_diagnostics_shape_witness :
    (missingDiag plainLib ⟨"main.tf", ⟨1, 1, 0⟩, ⟨2, 2, 12⟩⟩ "ami").Severity = DiagError ∧
    (missingDiag plainLib ⟨"main.tf", ⟨1, 1, 0⟩, ⟨2, 2, 12⟩⟩ "ami").Summary =
      "Required attribute \"ami\" not specified" ∧
    (missingDiag plainLib ⟨"main.tf", ⟨1, 1, 0⟩, ⟨2, 2, 12⟩⟩ "ami").Detail =
      "An attribute named \"ami\" is required here" ∧
    (missingDiag plainLib ⟨"main.tf", ⟨1, 1, 0⟩, ⟨2, 2, 12⟩⟩ "ami").Subject =
      some ⟨"main.tf", ⟨1, 1, 0⟩, ⟨2, 2, 12⟩⟩ ∧
    ∃ fix, (missingDiag plainLib ⟨"main.tf", ⟨1, 1, 0⟩, ⟨2, 2, 12⟩⟩ "ami").CodeActions =
      some [fix] := by
  obtain ⟨b, entries, name, attr, hb, hs, hmem, -, -, hsev, -, -, -, hplain, hsubj, hfix⟩ :=
    Visit_diagnostics_shape plainLib [] []
      (Node.Body { Attributes := some [], SrcRange := ⟨"main.tf", ⟨1, 1, 0⟩, ⟨2, 2, 12⟩⟩ })
      (Node.Body { Attributes := some [("ami", placeholder "ami")],
                   SrcRange := ⟨"main.tf", ⟨1, 1, 0⟩, ⟨2, 2, 12⟩⟩ })
      (Schema.BodySchema { Attributes := some [("ami", ⟨true⟩)] })
      (some [missingDiag plainLib ⟨"main.tf", ⟨1, 1, 0⟩, ⟨2, 2, 12⟩⟩ "ami"])
      (by decide)
      (missingDiag plainLib ⟨"main.tf", ⟨1, 1, 0⟩, ⟨2, 2, 12⟩⟩ "ami")
      (by simp [Slice.elems])
  injection hb with hb
  subst hb
  injection hs with hs
  injection hs with hs
  injection hs with hs
  subst hs
  simp only [List.mem_singleton, Prod.mk.injEq] at hmem
  obtain ⟨hname, -⟩ := hmem
  subst hname
  exact ⟨hsev, (hplain (by decide)).1, (hplain (by decide)).2, hsubj, hfix⟩

/-- C8, the fix builder: for a diagnostic with a subject range and a name, the
builder returns a fix with message `Add missing attribute`, kind `quickfix` and
exactly one edit; the range of the edit is empty (start equals end), on the line
where the subject ends, at column 1, in the file of the subject. -/
theorem buildMissingRequiredAttributeCodeAction_spec (lib : Lib) (diag : Diagnostic)
    (missingAttribute : String) (subject : Range) (h : diag.Subject = some subject) :
    ∃ edit, buildMissingRequiredAttributeCodeAction lib diag missingAttribute =
        Outcome.returns { Message := "Add missing attribute", Kind := "quickfix",
                          Edits := some [edit] } ∧
      edit.Range.Start = edit.Range.End ∧
      edit.Range.Start.Line = subject.End.Line ∧ edit.Range.Start.Column = 1 ∧
      edit.Range.End.Line = subject.End.Line ∧ edit.Range.End.Column = 1 ∧
      edit.Range.Filename = subject.Filename := by
  refine ⟨{ Range := { Filename := subject.Filename,
                       Start := { Line := subject.End.Line, Column := 1,
                                  Byte := subject.End.Byte },
                       End := { Line := subject.End.Line, Column := 1,
                                Byte := subject.End.Byte } },
            NewText := lib.renderNullAttribute missingAttribute }, ?_, ?_⟩
  · simp only [buildMissingRequiredAttributeCodeAction, h, Slice.append, Slice.elems,
      QuickfixAddMissingAttributes, List.nil_append]
  · simp

/-- C8 at a subject that spans lines 3 to 7 and ends at column 2: the edit is
an insertion at line 7, column 1. -/
theorem buildMissingRequiredAttributeCodeAction_spec_witness :
    ∃ edit, buildMissingRequiredAttributeCodeAction plainLib
        { Severity := DiagError, Summary := "s", Detail := "d",
          Subject := some ⟨"main.tf", ⟨3, 5, 40⟩, ⟨7, 2, 90⟩⟩, CodeActions := none } "ami" =
        Outcome.returns { Message := "Add missing attribute", Kind := "quickfix",
                          Edits := some [edit] } ∧
      edit.Range.Start = edit.Range.End ∧
      edit.Range.Start.Line = 7 ∧ edit.Range.Start.Column = 1 ∧
      edit.Range.End.Line = 7 ∧ edit.Range.End.Column = 1 ∧
      edit.Range.Filename = "main.tf" :=
  buildMissingRequiredAttributeCodeAction_spec plainLib
    { Severity := DiagError, Summary := "s", Detail := "d",
      Subject := some ⟨"main.tf", ⟨3, 5, 40⟩, ⟨7, 2, 90⟩⟩, CodeActions := none } "ami"
    ⟨"main.tf", ⟨3, 5, 40⟩, ⟨7, 2, 90⟩⟩ rfl

/-! ## The converter -/

theorem diagsLoop_not_nil (source : String) (hclDiags : List Diagnostic) :
    ∀ (acc r : Slice lsp.Diagnostic), acc ≠ none →
      diagsLoop source acc hclDiags = Outcome.returns r → r ≠ none := by
  induction hclDiags with
  | nil =>
    intro acc r hacc h
    simp only [diagsLoop] at h
    injection h with h
    subst h
    exact hacc
  | cons d rest ih =>
    intro acc r _ h
    simp only [diagsLoop] at h
    cases hd : diagToLSP d source with
    | panics msg => rw [hd] at h; cases h
    | returns x =>
      rw [hd] at h
      exact ih (acc.append x) r (by simp [Slice.append]) h

/-- C9, the converter never returns nil: for the nil and for the empty input
`HCLDiagsToLSP` returns the empty slice that is not nil, and whatever it returns
for any input is not nil. -/
theorem HCLDiagsToLSP_never_nil (hclDiags : Slice Diagnostic) (source : String) :
    HCLDiagsToLSP none source = Outcome.returns (some []) ∧
    HCLDiagsToLSP (some []) source = Outcome.returns (some []) ∧
    ∀ r, HCLDiagsToLSP hclDiags source = Outcome.returns r → r ≠ none := by
  refine ⟨rfl, rfl, fun r h => ?_⟩
  exact diagsLoop_not_nil source hclDiags.elems (some []) r (by simp) h

/-- C9 at the input of the repository's test, one diagnostic of severity Error:
the result is a slice of one element, not nil. -/
theorem HCLDiagsToLSP_never_nil_witness :
    (some [{ Range := lsp.zeroRange, Severity := lsp.SeverityError, Source := "source",
             Message := "", Data := some [] }] : Slice lsp.Diagnostic) ≠ none :=
  (HCLDiagsToLSP_never_nil
    (some [{ Severity := DiagError, Summary := "", Detail := "", Subject := none,
             CodeActions := none }]) "source").2.2 _ (by decide)

theorem Entries.set_set {α : Type} (m : Entries α) (k : String) (v v' : α) :
    Entries.set (Entries.set m k v) k v' = Entries.set m k v' := by
  induction m with
  | nil => simp [Entries.set]
  | cons e rest ih =>
    obtain ⟨k0, v0⟩ := e
    by_cases h0 : k0 = k
    · simp [Entries.set, h0]
    · simp [Entries.set, h0, ih]

theorem Entries.getSlice_set {α : Type} (m : Entries (Slice α)) (k : String) (v : Slice α) :
    Entries.getSlice (Entries.set m k v) k = v := by
  simp [Entries.getSlice, Entries.get_set]

theorem codeActionEdits_same_file (source : String) (edits : List TextEdit) :
    ∀ (m : Entries (Slice lsp.TextEdit)) (acc : Slice lsp.TextEdit),
      (∀ e ∈ edits, e.Range.Filename = source) →
      codeActionEdits source (some (Entries.set m source acc)) edits =
        some (Entries.set m source
          (if edits = [] then acc else some (acc.elems ++ edits.map editToLSP))) := by
  induction edits with
  | nil => intro m acc _; simp [codeActionEdits]
  | cons e rest ih =>
    intro m acc h
    have he : e.Range.Filename = source := h e (List.mem_cons_self _ _)
    have hstep : codeActionEdit source (some (Entries.set m source acc)) e =
        some (Entries.set m source (Slice.append acc (editToLSP e))) := by
      simp [codeActionEdit, he, Entries.getSlice_set, Entries.set_set]
    simp only [codeActionEdits, hstep]
    rw [ih m _ (fun x hx => h x (List.mem_cons_of_mem _ hx))]
    by_cases hr : rest = []
    · subst hr
      simp [Slice.append]
    · simp [hr, Slice.append, Slice.elems]

/-- When every edit of a fix records the source label as its file name, the
slice stored under the source label holds the conversion of every edit, in the
order of the fix. -/
theorem HCLCodeActionToLSP_same_file (codeAction : CodeAction) (source : String)
    (h : ∀ e ∈ codeAction.Edits.elems, e.Range.Filename = source)
    (hne : codeAction.Edits.elems ≠ []) :
    (HCLCodeActionToLSP codeAction source).Edit.Changes =
      some [(source, some (codeAction.Edits.elems.map editToLSP))] := by
  unfold HCLCodeActionToLSP
  cases hE : codeAction.Edits.elems with
  | nil => exact absurd hE hne
  | cons e rest =>
    rw [hE] at h
    have he : e.Range.Filename = source := h e (List.mem_cons_self _ _)
    have hstep : codeActionEdit source none e =
        some (Entries.set [] source (some [editToLSP e])) := by
      simp [codeActionEdit, he, Entries.getSlice, Entries.get, Entries.set, Slice.append,
        Slice.elems]
    simp only [codeActionEdits, hstep]
    rw [codeActionEdits_same_file source rest [] _ (fun x hx => h x (List.mem_cons_of_mem _ hx))]
    by_cases hr : rest = []
    · subst hr
      simp [Entries.set]
    · simp [hr, Entries.set, Slice.elems]

/-- C10, evaluated on a fix with two edits recorded for `other.tf` and the
source label `main.tf`: the slice stored under `main.tf` holds the second edit
only, because each round appends to the slice read under the file name of the
edit, which is never stored. -/
theorem HCLCodeActionToLSP_keeps_last_edit_only :
    (HCLCodeActionToLSP
        { Message := "Add missing attribute", Kind := "quickfix",
          Edits := some [{ Range := ⟨"other.tf", ⟨1, 1, 0⟩, ⟨1, 1, 0⟩⟩, NewText := "first" },
                         { Range := ⟨"other.tf", ⟨2, 1, 9⟩, ⟨2, 1, 9⟩⟩, NewText := "second" }] }
        "main.tf").Edit.Changes =
      some [("main.tf", some [{ Range := ⟨⟨1, 0⟩, ⟨1, 0⟩⟩, NewText := "second" }])] ∧
    (HCLCodeActionToLSP
        { Message := "Add missing attribute", Kind := "quickfix",
          Edits := some [{ Range := ⟨"other.tf", ⟨1, 1, 0⟩, ⟨1, 1, 0⟩⟩, NewText := "first" },
                         { Range := ⟨"other.tf", ⟨2, 1, 9⟩, ⟨2, 1, 9⟩⟩, NewText := "second" }] }
        "main.tf").Edit.Changes ≠
      some [("main.tf", some [editToLSP { Range := ⟨"other.tf", ⟨1, 1, 0⟩, ⟨1, 1, 0⟩⟩,
                                          NewText := "first" },
                              editToLSP { Range := ⟨"other.tf", ⟨2, 1, 9⟩, ⟨2, 1, 9⟩⟩,
                                          NewText := "second" }])] := by
  decide

/-! ## The converter, element by element -/

theorem HCLSeverityToLSP_valid (severity : DiagnosticSeverity) (h : severity ≠ DiagInvalid) :
    HCLSeverityToLSP severity = Outcome.returns (severityValue severity) := by
  unfold HCLSeverityToLSP severityValue
  by_cases h1 : severity = DiagError
  · simp [h1]
  · by_cases h2 : severity = DiagWarning
    · rw [if_neg h1, if_pos h2, if_neg h1, if_pos h2]
    · simp [h1, h2, h]

theorem diagToLSP_valid (source : String) (d : Diagnostic) (h : d.Severity ≠ DiagInvalid) :
    diagToLSP d source = Outcome.returns (convertedDiag source d) := by
  unfold diagToLSP convertedDiag
  rw [HCLSeverityToLSP_valid d.Severity h]
  by_cases hd : d.Detail = ""
  · cases hsub : d.Subject <;> simp [hd]
  · cases hsub : d.Subject <;> simp [hd, String.append_assoc]

theorem diagToLSP_invalid (source : String) (d : Diagnostic) (h : d.Severity = DiagInvalid) :
    diagToLSP d source = Outcome.panics "invalid diagnostic" := by
  simp [diagToLSP, HCLSeverityToLSP, h, DiagInvalid, DiagError, DiagWarning]

theorem diagToLSP_returns (source : String) (d : Diagnostic) (x : lsp.Diagnostic)
    (h : diagToLSP d source = Outcome.returns x) :
    d.Severity ≠ DiagInvalid ∧ x = convertedDiag source d := by
  by_cases hinv : d.Severity = DiagInvalid
  · rw [diagToLSP_invalid source d hinv] at h
    cases h
  · rw [diagToLSP_valid source d hinv] at h
    injection h with h
    exact ⟨hinv, h.symm⟩

theorem diagsLoop_valid (source : String) (l : List Diagnostic) :
    ∀ acc : List lsp.Diagnostic, (∀ d ∈ l, d.Severity ≠ DiagInvalid) →
      diagsLoop source (some acc) l =
        Outcome.returns (some (acc ++ l.map (convertedDiag source))) := by
  induction l with
  | nil => intro acc _; simp [diagsLoop]
  | cons d rest ih =>
    intro acc h
    simp only [diagsLoop, diagToLSP_valid source d (h d (List.mem_cons_self _ _))]
    rw [show Slice.append (some acc) (convertedDiag source d) =
        some (acc ++ [convertedDiag source d]) from rfl]
    rw [ih _ (fun x hx => h x (List.mem_cons_of_mem _ hx))]
    simp

theorem diagsLoop_invalid (source : String) (l : List Diagnostic) :
    ∀ acc : Slice lsp.Diagnostic, (∃ d ∈ l, d.Severity = DiagInvalid) →
      diagsLoop source acc l = Outcome.panics "invalid diagnostic" := by
  induction l with
  | nil => intro acc h; obtain ⟨d, hd, -⟩ := h; cases hd
  | cons d rest ih =>
    intro acc h
    by_cases hinv : d.Severity = DiagInvalid
    · simp only [diagsLoop, diagToLSP_invalid source d hinv]
    · simp only [diagsLoop, diagToLSP_valid source d hinv]
      apply ih
      obtain ⟨x, hx, hxs⟩ := h
      rcases List.mem_cons.mp hx with hx | hx
      · subst hx; exact absurd hxs hinv
      · exact ⟨x, hx, hxs⟩

theorem HCLDiagsToLSP_valid (hclDiags : Slice Diagnostic) (source : String)
    (h : ∀ d ∈ hclDiags.elems, d.Severity ≠ DiagInvalid) :
    HCLDiagsToLSP hclDiags source =
      Outcome.returns (some (hclDiags.elems.map (convertedDiag source))) := by
  unfold HCLDiagsToLSP
  rw [diagsLoop_valid source hclDiags.elems [] h]
  simp

theorem codeActionsLoop_eq (source : String) (l : List CodeAction) :
    ∀ acc : List lsp.CodeAction,
      codeActionsLoop source (some acc) l =
        some (acc ++ l.map (fun c => HCLCodeActionToLSP c source)) := by
  induction l with
  | nil => intro acc; simp [codeActionsLoop]
  | cons c rest ih =>
    intro acc
    simp only [codeActionsLoop]
    rw [show Slice.append (some acc) (HCLCodeActionToLSP c source) =
        some (acc ++ [HCLCodeActionToLSP c source]) from rfl, ih]
    simp

theorem HCLCodeActionsToLSP_eq (codeActions : Slice CodeAction) (source : String) :
    HCLCodeActionsToLSP codeActions source =
      some (codeActions.elems.map (fun c => HCLCodeActionToLSP c source)) := by
  unfold HCLCodeActionsToLSP
  rw [codeActionsLoop_eq]
  simp

theorem codeActionEdits_single_key (source : String) (edits : List TextEdit) :
    ∀ v : Slice lsp.TextEdit,
      ∃ v', codeActionEdits source (some [(source, v)]) edits = some [(source, v')] := by
  induction edits with
  | nil => intro v; exact ⟨v, rfl⟩
  | cons e rest ih =>
    intro v
    have hstep : codeActionEdit source (some [(source, v)]) e =
        some [(source, Slice.append (Entries.getSlice [(source, v)] e.Range.Filename)
          (editToLSP e))] := by
      simp [codeActionEdit, Entries.set]
    simp only [codeActionEdits, hstep]
    exact ih _

theorem codeActionEdit_first (source : String) (e : TextEdit) :
    codeActionEdit source none e = some [(source, some [editToLSP e])] := by
  simp [codeActionEdit, Entries.set, Entries.getSlice, Entries.get, Slice.append, Slice.elems]

/-! ## The claims about the converter -/

/-- C11, fix grouping: for a code action with at least one edit and any source
label, the edit map that `HCLCodeActionToLSP` returns has exactly one entry, and
its key is the source label, whatever file names the edits record. -/
theorem HCLCodeActionToLSP_single_key (codeAction : CodeAction) (source : String)
    (h : 1 ≤ codeAction.Edits.len) :
    ∃ edits, (HCLCodeActionToLSP codeAction source).Edit.Changes = some [(source, edits)] ∧
      GoMap.keys (HCLCodeActionToLSP codeAction source).Edit.Changes = [source] := by
  unfold HCLCodeActionToLSP
  cases hE : codeAction.Edits.elems with
  | nil => simp [Slice.len, hE] at h
  | cons e rest =>
    simp only [codeActionEdits, codeActionEdit_first]
    obtain ⟨v', hv⟩ := codeActionEdits_single_key source rest (some [editToLSP e])
    exact ⟨v', hv, by rw [hv]; rfl⟩

/-- C11 at an edit recorded for `other.tf`, converted with the source label
`main.tf`: the only key is `main.tf`. -/
theorem HCLCodeActionToLSP_single_key_witness :
    ∃ edits,
      (HCLCodeActionToLSP
        { Message := "fix", Kind := "quickfix",
          Edits := some [{ Range := ⟨"other.tf", ⟨1, 2, 0⟩, ⟨1, 2, 0⟩⟩, NewText := "text" }] }
        "main.tf").Edit.Changes = some [("main.tf", edits)] ∧
      GoMap.keys (HCLCodeActionToLSP
        { Message := "fix", Kind := "quickfix",
          Edits := some [{ Range := ⟨"other.tf", ⟨1, 2, 0⟩, ⟨1, 2, 0⟩⟩, NewText := "text" }] }
        "main.tf").Edit.Changes = ["main.tf"] :=
  HCLCodeActionToLSP_single_key _ "main.tf" (by decide)

/-- C12, range conversion: for a range whose lines and columns are at least 1,
the converted range has line minus 1 and column minus 1 at both ends, none of
them negative, so line 1, column 2 becomes line 0, character 1; this is the
range of the converted edit of a fix and of a converted diagnostic whose subject
it is, and a diagnostic without subject gets the zero range. -/
theorem HCLRangeToLSP_exact (rng : Range) (source : String)
    (hsl : 1 ≤ rng.Start.Line) (hsc : 1 ≤ rng.Start.Column)
    (hel : 1 ≤ rng.End.Line) (hec : 1 ≤ rng.End.Column) :
    HCLRangeToLSP rng =
      { Start := { Line := rng.Start.Line - 1, Character := rng.Start.Column - 1 },
        End := { Line := rng.End.Line - 1, Character := rng.End.Column - 1 } } ∧
    (0 ≤ (HCLRangeToLSP rng).Start.Line ∧ 0 ≤ (HCLRangeToLSP rng).Start.Character ∧
      0 ≤ (HCLRangeToLSP rng).End.Line ∧ 0 ≤ (HCLRangeToLSP rng).End.Character) ∧
    HCLPosToLSP { Line := 1, Column := 2, Byte := 0 } = { Line := 0, Character := 1 } ∧
    (∀ message kind text,
      (HCLCodeActionToLSP
        { Message := message, Kind := kind, Edits := some [{ Range := rng, NewText := text }] }
        source).Edit.Changes =
      some [(source, some
        [{ Range :=
             { Start := { Line := rng.Start.Line - 1, Character := rng.Start.Column - 1 },
               End := { Line := rng.End.Line - 1, Character := rng.End.Column - 1 } },
           NewText := text }])]) ∧
    (∀ d : Diagnostic, d.Severity ≠ DiagInvalid → d.Subject = some rng →
      ∃ x, HCLDiagsToLSP (some [d]) source = Outcome.returns (some [x]) ∧
        x.Range =
          { Start := { Line := rng.Start.Line - 1, Character := rng.Start.Column - 1 },
            End := { Line := rng.End.Line - 1, Character := rng.End.Column - 1 } }) ∧
    (∀ d : Diagnostic, d.Severity ≠ DiagInvalid → d.Subject = none →
      ∃ x, HCLDiagsToLSP (some [d]) source = Outcome.returns (some [x]) ∧
        x.Range = { Start := { Line := 0, Character := 0 },
                    End := { Line := 0, Character := 0 } }) := by
  refine ⟨rfl, ?_, rfl, ?_, ?_, ?_⟩
  · simp only [HCLRangeToLSP, HCLPosToLSP]
    omega
  · intro message kind text
    simp only [HCLCodeActionToLSP, Slice.elems, codeActionEdits, codeActionEdit_first]
    rfl
  · intro d hd hsub
    refine ⟨convertedDiag source d, ?_, ?_⟩
    · rw [HCLDiagsToLSP_valid (some [d]) source (by simpa [Slice.elems] using hd)]
      rfl
    · simp only [convertedDiag, hsub]
      rfl
  · intro d hd hsub
    refine ⟨convertedDiag source d, ?_, ?_⟩
    · rw [HCLDiagsToLSP_valid (some [d]) source (by simpa [Slice.elems] using hd)]
      rfl
    · simp only [convertedDiag, hsub]
      rfl

/-- C12 at the range of the repository's test, line 1, column 2 at both ends. -/
theorem HCLRangeToLSP_exact_witness :
    HCLRangeToLSP ⟨"testfile", ⟨1, 2, 0⟩, ⟨1, 2, 0⟩⟩ =
      { Start := { Line := 0, Character := 1 }, End := { Line := 0, Character := 1 } } :=
  (HCLRangeToLSP_exact ⟨"testfile", ⟨1, 2, 0⟩, ⟨1, 2, 0⟩⟩ "testfile"
    (by decide) (by decide) (by decide) (by decide)).1

/-- C13, invalid severity is fatal: `HCLSeverityToLSP` maps Error to the
protocol's Error and Warning to the protocol's Warning and panics on Invalid;
`HCLDiagsToLSP` panics, and so returns nothing, on every input that holds a
diagnostic of severity Invalid. -/
theorem HCLDiagsToLSP_invalid_panics (hclDiags : Slice Diagnostic) (source : String)
    (h : ∃ d ∈ hclDiags.elems, d.Severity = DiagInvalid) :
    HCLSeverityToLSP DiagError = Outcome.returns lsp.SeverityError ∧
    HCLSeverityToLSP DiagWarning = Outcome.returns lsp.SeverityWarning ∧
    HCLSeverityToLSP DiagInvalid = Outcome.panics "invalid diagnostic" ∧
    HCLDiagsToLSP hclDiags source = Outcome.panics "invalid diagnostic" ∧
    ∀ r, HCLDiagsToLSP hclDiags source ≠ Outcome.returns r := by
  have hp : HCLDiagsToLSP hclDiags source = Outcome.panics "invalid diagnostic" :=
    diagsLoop_invalid source hclDiags.elems (some []) h
  refine ⟨by decide, by decide, by decide, hp, fun r hr => ?_⟩
  rw [hp] at hr
  cases hr

/-- C13 at an Error diagnostic followed by an Invalid one. -/
theorem HCLDiagsToLSP_invalid_panics_witness :
    HCLDiagsToLSP
      (some [{ Severity := DiagError, Summary := "a", Detail := "", Subject := none,
               CodeActions := none },
             { Severity := DiagInvalid, Summary := "b", Detail := "", Subject := none,
               CodeActions := none }]) "source" =
    Outcome.panics "invalid diagnostic" :=
  (HCLDiagsToLSP_invalid_panics _ "source"
    ⟨{ Severity := DiagInvalid, Summary := "b", Detail := "", Subject := none,
       CodeActions := none }, by simp [Slice.elems], rfl⟩).2.2.2.1

/-- C14, the message: for input whose diagnostics all have a severity other
than Invalid, `HCLDiagsToLSP` returns, and the message of each protocol
diagnostic is the summary alone when the detail is empty, and the summary, then
`: `, then the detail when it is not. -/
theorem HCLDiagsToLSP_message (hclDiags : Slice Diagnostic) (source : String)
    (h : ∀ d ∈ hclDiags.elems, d.Severity ≠ DiagInvalid) :
    ∃ out, HCLDiagsToLSP hclDiags source = Outcome.returns (some out) ∧
      out.map (fun x => x.Message) =
        hclDiags.elems.map (fun d =>
          if d.Detail = "" then d.Summary else d.Summary ++ ": " ++ d.Detail) := by
  refine ⟨_, HCLDiagsToLSP_valid hclDiags source h, ?_⟩
  simp [convertedDiag, Function.comp_def]

/-- C14 at a diagnostic with a detail and one without. -/
theorem HCLDiagsToLSP_message_witness :
    ∃ out,
      HCLDiagsToLSP
        (some [{ Severity := DiagError, Summary := "Missing", Detail := "add it",
                 Subject := none, CodeActions := none },
               { Severity := DiagWarning, Summary := "Deprecated", Detail := "",
                 Subject := none, CodeActions := none }]) "source" =
        Outcome.returns (some out) ∧
      out.map (fun x => x.Message) = ["Missing: add it", "Deprecated"] := by
  obtain ⟨out, hout, hmsg⟩ := HCLDiagsToLSP_message
    (some [{ Severity := DiagError, Summary := "Missing", Detail := "add it",
             Subject := none, CodeActions := none },
           { Severity := DiagWarning, Summary := "Deprecated", Detail := "",
             Subject := none, CodeActions := none }]) "source" (by decide)
  exact ⟨out, hout, by rw [hmsg]; decide⟩

/-- C15, a code action without edits: whether its edits are the nil slice or an
empty one, `HCLCodeActionToLSP` returns the title of the message, the kind
copied through, and a workspace edit whose map is nil. -/
theorem HCLCodeActionToLSP_no_edits (codeAction : CodeAction) (source : String)
    (h : codeAction.Edits.len = 0) :
    HCLCodeActionToLSP codeAction source =
      { Title := codeAction.Message, Kind := codeAction.Kind, Edit := { Changes := none } } := by
  have hE : codeAction.Edits.elems = [] := List.length_eq_zero.mp h
  simp [HCLCodeActionToLSP, hE, codeActionEdits]

/-- C15 at the case `empty` of the repository's test. -/
theorem HCLCodeActionToLSP_no_edits_witness :
    HCLCodeActionToLSP { Message := "test", Kind := "quickfix", Edits := none } "source" =
      { Title := "test", Kind := "quickfix", Edit := { Changes := none } } :=
  HCLCodeActionToLSP_no_edits { Message := "test", Kind := "quickfix", Edits := none }
    "source" rfl

theorem diagsLoop_data (source : String) (l : List Diagnostic) :
    ∀ (acc out : Slice lsp.Diagnostic), diagsLoop source acc l = Outcome.returns out →
      (∀ x ∈ acc.elems, x.Data ≠ none) → ∀ x ∈ out.elems, x.Data ≠ none := by
  induction l with
  | nil =>
    intro acc out h hacc
    simp only [diagsLoop] at h
    injection h with h
    subst h
    exact hacc
  | cons d rest ih =>
    intro acc out h hacc
    simp only [diagsLoop] at h
    cases hd : diagToLSP d source with
    | panics msg => rw [hd] at h; cases h
    | returns x =>
      rw [hd] at h
      refine ih (acc.append x) out h ?_
      intro y hy
      simp only [Slice.append, Slice.elems, List.mem_append, List.mem_singleton] at hy
      rcases hy with hy | hy
      · exact hacc y hy
      · subst hy
        rw [(diagToLSP_returns source d y hd).2]
        simp [convertedDiag, HCLCodeActionsToLSP_eq]

/-- C16, fixes are never nil: `HCLCodeActionsToLSP` returns a slice that is not
nil, empty for the nil and for the empty list of fixes, and in general of the
length of its input with `HCLCodeActionToLSP` of the i-th fix at place i; so the
data of every diagnostic that `HCLDiagsToLSP` returns is not nil. -/
theorem HCLCodeActionsToLSP_never_nil (codeActions : Slice CodeAction) (source : String) :
    HCLCodeActionsToLSP none source = some [] ∧
    HCLCodeActionsToLSP (some []) source = some [] ∧
    ∃ out : List lsp.CodeAction, HCLCodeActionsToLSP codeActions source = some out ∧
      out.length = codeActions.len ∧
      (∀ i : Nat,
        out[i]? = (codeActions.elems[i]?).map (fun c => HCLCodeActionToLSP c source)) ∧
      ∀ (hclDiags : Slice Diagnostic) (r : Slice lsp.Diagnostic),
        HCLDiagsToLSP hclDiags source = Outcome.returns r → ∀ x ∈ r.elems, x.Data ≠ none := by
  refine ⟨rfl, rfl, _, HCLCodeActionsToLSP_eq codeActions source, ?_, ?_, ?_⟩
  · simp [Slice.len]
  · intro i
    simp [List.getElem?_map]
  · intro hclDiags r hr
    exact diagsLoop_data source hclDiags.elems (some []) r hr (by simp [Slice.elems])

/-- C16 at the nil list of fixes and the source label `source`. -/
theorem HCLCodeActionsToLSP_never_nil_witness :
    HCLCodeActionsToLSP none "source" = some [] :=
  (HCLCodeActionsToLSP_never_nil none "source").1

/-- C18, the converter is a map: for input whose diagnostics all have a severity
other than Invalid, `HCLDiagsToLSP` returns a slice of the length of the input
whose i-th element is built from the i-th diagnostic alone: its range from the
subject, its severity and message from the severity, summary and detail, its
data from the fixes, and its source is the source label. -/
theorem HCLDiagsToLSP_map (hclDiags : Slice Diagnostic) (source : String)
    (h : ∀ d ∈ hclDiags.elems, d.Severity ≠ DiagInvalid) :
    ∃ out : List lsp.Diagnostic,
      HCLDiagsToLSP hclDiags source = Outcome.returns (some out) ∧
      out.length = hclDiags.len ∧
      ∀ i : Nat, out[i]? = (hclDiags.elems[i]?).map (fun d =>
        ({ Range := match d.Subject with
                    | some subject => HCLRangeToLSP subject
                    | none => lsp.zeroRange,
           Severity := if d.Severity = DiagError then lsp.SeverityError
                       else if d.Severity = DiagWarning then lsp.SeverityWarning else 0,
           Source := source,
           Message := if d.Detail = "" then d.Summary else d.Summary ++ ": " ++ d.Detail,
           Data := some (d.CodeActions.elems.map (fun c => HCLCodeActionToLSP c source)) } :
          lsp.Diagnostic)) := by
  refine ⟨_, HCLDiagsToLSP_valid hclDiags source h, ?_, ?_⟩
  · simp [Slice.len]
  · intro i
    rw [List.getElem?_map]
    cases hclDiags.elems[i]? with
    | none => rfl
    | some d =>
      simp only [Option.map_some', convertedDiag, severityValue, HCLCodeActionsToLSP_eq]

/-- C18 at an Error with a subject followed by a Warning without: the result
has two elements. -/
theorem HCLDiagsToLSP_map_witness :
    ∃ out : List lsp.Diagnostic,
      HCLDiagsToLSP
        (some [{ Severity := DiagError, Summary := "Missing", Detail := "add it",
                 Subject := some ⟨"main.tf", ⟨3, 1, 20⟩, ⟨4, 2, 31⟩⟩, CodeActions := none },
               { Severity := DiagWarning, Summary := "Deprecated", Detail := "",
                 Subject := none, CodeActions := none }]) "hcl" =
        Outcome.returns (some out) ∧
      out.length = 2 := by
  obtain ⟨out, hout, hlen, -⟩ := HCLDiagsToLSP_map
    (some [{ Severity := DiagError, Summary := "Missing", Detail := "add it",
             Subject := some ⟨"main.tf", ⟨3, 1, 20⟩, ⟨4, 2, 31⟩⟩, CodeActions := none },
           { Severity := DiagWarning, Summary := "Deprecated", Detail := "",
             Subject := none, CodeActions := none }]) "hcl" (by decide)
  exact ⟨out, hout, hlen⟩

/-! ## The traversal context -/

/-- C17, the suppression flag: the context that `WithUnknownRequiredAttributes`
returns carries the flag; it is a new layer on top of the context given, which
it keeps as it was, so every value stored under another key, the block nesting
level among them, reads the same from both; and a context with no layer under
the key of the flag does not carry it. -/
theorem WithUnknownRequiredAttributes_spec (ctx : Context) :
    HasUnknownRequiredAttributes (WithUnknownRequiredAttributes ctx) = true ∧
    (WithUnknownRequiredAttributes ctx).tail = ctx ∧
    (∀ key, key ≠ CtxKey.unknownRequiredAttrsCtxKey →
      (WithUnknownRequiredAttributes ctx).Value key = ctx.Value key) ∧
    BlockNestingLevel (WithUnknownRequiredAttributes ctx) = BlockNestingLevel ctx ∧
    ((∀ e ∈ ctx, e.1 ≠ CtxKey.unknownRequiredAttrsCtxKey) →
      HasUnknownRequiredAttributes ctx = false) := by
  refine ⟨?_, rfl, ?_, ?_, ?_⟩
  · simp [HasUnknownRequiredAttributes, WithUnknownRequiredAttributes, WithValue, Context.Value]
  · intro key hkey
    have hne : ¬ CtxKey.unknownRequiredAttrsCtxKey = key := fun hEq => hkey hEq.symm
    simp [WithUnknownRequiredAttributes, WithValue, Context.Value, hne]
  · simp [BlockNestingLevel, WithUnknownRequiredAttributes, WithValue, Context.Value]
  · intro hnone
    have hval : ctx.Value CtxKey.unknownRequiredAttrsCtxKey = none := by
      induction ctx with
      | nil => rfl
      | cons e rest ih =>
        obtain ⟨k, v⟩ := e
        have hk : ¬ k = CtxKey.unknownRequiredAttrsCtxKey :=
          hnone (k, v) (List.mem_cons_self _ _)
        simp only [Context.Value, hk, if_false]
        exact ih (fun e he => hnone e (List.mem_cons_of_mem _ he))
    simp [HasUnknownRequiredAttributes, hval]

/-- C17 at a context that only records the nesting level 0: it does not carry
the flag, and the nesting level is read the same from the derived context. -/
theorem WithUnknownRequiredAttributes_spec_witness :
    HasUnknownRequiredAttributes [(CtxKey.blockNestingLevelCtxKey, CtxValue.int 0)] = false ∧
    BlockNestingLevel
      (WithUnknownRequiredAttributes [(CtxKey.blockNestingLevelCtxKey, CtxValue.int 0)]) =
      (0, true) :=
  ⟨(WithUnknownRequiredAttributes_spec
      [(CtxKey.blockNestingLevelCtxKey, CtxValue.int 0)]).2.2.2.2 (by decide),
   (WithUnknownRequiredAttributes_spec
      [(CtxKey.blockNestingLevelCtxKey, CtxValue.int 0)]).2.2.2.1⟩

/-! ## Iteration order of the schema -/

theorem missingNames_perm (attrs : GoMap Attribute) (entries1 entries2 : Entries AttributeSchema)
    (h : entries1.Perm entries2) :
    (missingNames attrs entries1).Perm (missingNames attrs entries2) :=
  (h.filter _).map _

theorem any_required_perm (entries1 entries2 : Entries AttributeSchema)
    (h : entries1.Perm entries2) :
    entries1.any (fun e => e.2.IsRequired) = entries2.any (fun e => e.2.IsRequired) := by
  rw [Bool.eq_iff_iff]
  simp only [List.any_eq_true]
  constructor
  · rintro ⟨e, he, hr⟩; exact ⟨e, h.mem_iff.mp he, hr⟩
  · rintro ⟨e, he, hr⟩; exact ⟨e, h.mem_iff.mpr he, hr⟩

/-- C19, the order of the schema entries does not matter: for an unsuppressed
context, a body, and two orders of the entries of one schema map, on a body
whose attribute map is not nil both visits return, their diagnostics are
permutations of each other and the attribute maps they leave hold the same
attribute under every key; on a body whose attribute map is nil the two visits
have the same outcome. -/
theorem Visit_order_independent (lib : Lib) (ctx : Context) (b : Body)
    (entries1 entries2 : Entries AttributeSchema)
    (h : HasUnknownRequiredAttributes ctx = false)
    (hnd : (entries1.map Prod.fst).Nodup) (hperm : entries1.Perm entries2) :
    (b.Attributes ≠ none →
      ∃ (d1 d2 : Slice Diagnostic) (a1 a2 : GoMap Attribute),
        Visit lib ctx (Node.Body b) (Schema.BodySchema { Attributes := some entries1 }) =
          Outcome.returns (ctx, d1, Node.Body { Attributes := a1, SrcRange := b.SrcRange }) ∧
        Visit lib ctx (Node.Body b) (Schema.BodySchema { Attributes := some entries2 }) =
          Outcome.returns (ctx, d2, Node.Body { Attributes := a2, SrcRange := b.SrcRange }) ∧
        d1.elems.Perm d2.elems ∧
        ∀ k, GoMap.get a1 k = GoMap.get a2 k) ∧
    (b.Attributes = none →
      Visit lib ctx (Node.Body b) (Schema.BodySchema { Attributes := some entries1 }) =
        Visit lib ctx (Node.Body b) (Schema.BodySchema { Attributes := some entries2 })) := by
  have hnd2 : (entries2.map Prod.fst).Nodup := ((hperm.map Prod.fst).nodup_iff).mp hnd
  obtain ⟨attrs, rng⟩ := b
  constructor
  · intro hne
    cases attrs with
    | none => exact absurd rfl hne
    | some m =>
      refine ⟨_, _, _, _, Visit_body_some lib ctx m rng entries1 h hnd,
        Visit_body_some lib ctx m rng entries2 h hnd2, ?_, ?_⟩
      · rw [Slice.elems_foldl_append, Slice.elems_foldl_append]
        exact ((missingNames_perm (some m) entries1 entries2 hperm).map _).append_left _
      · intro k
        simp only [GoMap.get, withPlaceholders_get]
        have hiff : k ∈ missingNames (some m) entries1 ↔ k ∈ missingNames (some m) entries2 :=
          (missingNames_perm (some m) entries1 entries2 hperm).mem_iff
        by_cases hk : k ∈ missingNames (some m) entries1
        · simp [hk, hiff.mp hk]
        · have hk2 : k ∉ missingNames (some m) entries2 := fun hmem => hk (hiff.mpr hmem)
          simp [hk, hk2]
  · intro hnil
    simp only at hnil
    subst hnil
    rw [Visit_body_unfold lib ctx _ entries1 h, Visit_body_unfold lib ctx _ entries2 h]
    simp only [visitAttributes_nil_map, any_required_perm entries1 entries2 hperm]

/-- C19 at a body with `b` and the schema that requires `a`, `b` and `c`, read
in the orders a, b, c and c, b, a. -/
theorem Visit_order_independent_witness :
    ∃ (d1 d2 : Slice Diagnostic) (a1 a2 : GoMap Attribute),
      Visit plainLib []
        (Node.Body { Attributes := some [("b", ⟨"b", Expression.other "1"⟩)],
                     SrcRange := ⟨"main.tf", ⟨1, 1, 0⟩, ⟨3, 2, 20⟩⟩ })
        (Schema.BodySchema
          { Attributes := some [("a", ⟨true⟩), ("b", ⟨true⟩), ("c", ⟨true⟩)] }) =
        Outcome.returns (([] : Context), d1,
          Node.Body { Attributes := a1, SrcRange := ⟨"main.tf", ⟨1, 1, 0⟩, ⟨3, 2, 20⟩⟩ }) ∧
      Visit plainLib []
        (Node.Body { Attributes := some [("b", ⟨"b", Expression.other "1"⟩)],
                     SrcRange := ⟨"main.tf", ⟨1, 1, 0⟩, ⟨3, 2, 20⟩⟩ })
        (Schema.BodySchema
          { Attributes := some [("c", ⟨true⟩), ("b", ⟨true⟩), ("a", ⟨true⟩)] }) =
        Outcome.returns (([] : Context), d2,
          Node.Body { Attributes := a2, SrcRange := ⟨"main.tf", ⟨1, 1, 0⟩, ⟨3, 2, 20⟩⟩ }) ∧
      d1.elems.Perm d2.elems ∧
      ∀ k, GoMap.get a1 k = GoMap.get a2 k :=
  (Visit_order_independent plainLib []
    { Attributes := some [("b", ⟨"b", Expression.other "1"⟩)],
      SrcRange := ⟨"main.tf", ⟨1, 1, 0⟩, ⟨3, 2, 20⟩⟩ }
    [("a", ⟨true⟩), ("b", ⟨true⟩), ("c", ⟨true⟩)]
    [("c", ⟨true⟩), ("b", ⟨true⟩), ("a", ⟨true⟩)]
    (by decide) (by decide) (by decide)).1 (by decide)

/-! ## From the validator to the protocol -/

theorem detailOf_ne_empty (lib : Lib) (name : String) : detailOf lib name ≠ "" := by
  intro hEq
  have hdata := congrArg String.data hEq
  simp [detailOf] at hdata

theorem convertedDiag_missingDiag (lib : Lib) (rng : Range) (name source : String) :
    convertedDiag source (missingDiag lib rng name) =
      { Range := HCLRangeToLSP rng,
        Severity := lsp.SeverityError,
        Source := source,
        Message := summaryOf lib name ++ ": " ++ detailOf lib name,
        Data := some [{ Title := "Add missing attribute",
                        Kind := "quickfix",
                        Edit := { Changes := some [(source,
                                    some [{ Range := ⟨⟨rng.End.Line - 1, 0⟩,
                                                      ⟨rng.End.Line - 1, 0⟩⟩,
                                            NewText := lib.renderNullAttribute name }])] } }] } := by
  simp only [convertedDiag, missingDiag, detailOf_ne_empty, if_false, severityValue, if_true,
    HCLCodeActionsToLSP_eq, Slice.elems, List.map_cons, List.map_nil, HCLCodeActionToLSP,
    codeActionEdits, codeActionEdit_first, QuickfixAddMissingAttributes]
  rfl

theorem message_plain (lib : Lib) (name : String) (h : plainName name = true) :
    summaryOf lib name ++ ": " ++ detailOf lib name =
      "Required attribute \"" ++ name ++ "\" not specified: An attribute named \"" ++ name ++
        "\" is required here" := by
  rw [summaryOf_plain lib name h, detailOf_plain lib name h]
  apply String.ext
  simp

/-- C20 as stated fails on a name that holds a double quote: from a body with
an allocated attribute map and the required name `a"b`, the message of the
protocol diagnostic carries the name as `%q` prints it, with the inner quote
escaped. -/
theorem Visit_then_convert_escapes_name :
    (match Visit plainLib []
        (Node.Body { Attributes := some [], SrcRange := ⟨"main.tf", ⟨1, 1, 0⟩, ⟨2, 2, 12⟩⟩ })
        (Schema.BodySchema { Attributes := some [("a\"b", ⟨true⟩)] }) with
      | Outcome.returns r => HCLDiagsToLSP r.2.1 "hcl"
      | Outcome.panics msg => Outcome.panics msg) =
      Outcome.returns (some
        [{ Range := ⟨⟨0, 0⟩, ⟨1, 1⟩⟩,
           Severity := lsp.SeverityError,
           Source := "hcl",
           Message := "Required attribute \"a\\\"b\" not specified: " ++
                        "An attribute named \"a\\\"b\" is required here",
           Data := some [{ Title := "Add missing attribute",
                           Kind := "quickfix",
                           Edit := { Changes := some [("hcl",
                                       some [{ Range := ⟨⟨1, 0⟩, ⟨1, 0⟩⟩,
                                               NewText := "a\"b = null\n" }])] } }] }]) ∧
    "Required attribute \"a\\\"b\" not specified: " ++
        "An attribute named \"a\\\"b\" is required here" ≠
      "Required attribute \"" ++ "a\"b" ++ "\" not specified: An attribute named \"" ++
        "a\"b" ++ "\" is required here" := by
  decide

/-- C20, amended: for an unsuppressed context, a body whose attribute map is
not nil and whose source range ends at line `L`, at least 1, a schema map in
which the name `n` is required and no key of the body, and a source label `s`,
`Visit` returns, `HCLDiagsToLSP` converts what it returns, and the result holds
for `n` a protocol diagnostic of severity Error and source `s`, with the message
`Required attribute Q not specified: An attribute named Q is required here`,
`Q` being `n` as `%q` prints it (`n` between double quotes when `n` is printable
ASCII without double quote and backslash), and exactly one fix, titled `Add
missing attribute`, whose edit map has the single key `s` with exactly one edit,
empty, at line `L - 1`, character 0. -/
theorem Visit_then_convert (lib : Lib) (ctx : Context) (m : Entries Attribute) (rng : Range)
    (entries : Entries AttributeSchema) (n : String) (attr : AttributeSchema) (source : String)
    (h : HasUnknownRequiredAttributes ctx = false)
    (hnd : (entries.map Prod.fst).Nodup)
    (hmem : (n, attr) ∈ entries) (hreq : attr.IsRequired = true)
    (hmiss : n ∉ GoMap.keys (some m)) (hL : 1 ≤ rng.End.Line) :
    ∃ (diags : Slice Diagnostic) (node : Node) (out : List lsp.Diagnostic),
      Visit lib ctx (Node.Body { Attributes := some m, SrcRange := rng })
        (Schema.BodySchema { Attributes := some entries }) =
        Outcome.returns (ctx, diags, node) ∧
      HCLDiagsToLSP diags source = Outcome.returns (some out) ∧
      ∃ x ∈ out,
        x.Severity = lsp.SeverityError ∧ x.Source = source ∧
        x.Message = ("Required attribute " ++ Quote lib n ++ " not specified") ++ ": " ++
          ("An attribute named " ++ Quote lib n ++ " is required here") ∧
        (plainName n = true →
          x.Message = "Required attribute \"" ++ n ++
            "\" not specified: An attribute named \"" ++ n ++ "\" is required here") ∧
        x.Data = some [{ Title := "Add missing attribute",
                         Kind := "quickfix",
                         Edit := { Changes := some [(source,
                                     some [{ Range := ⟨⟨rng.End.Line - 1, 0⟩,
                                                       ⟨rng.End.Line - 1, 0⟩⟩,
                                             NewText := lib.renderNullAttribute n }])] } }] ∧
        0 ≤ rng.End.Line - 1 := by
  have hv := Visit_body_some lib ctx m rng entries h hnd
  have hin : n ∈ missingNames (some m) entries :=
    (mem_missingNames (some m) entries n).mpr ⟨⟨attr, hmem, hreq⟩, hmiss⟩
  have helems :
      (((missingNames (some m) entries).map (missingDiag lib rng)).foldl Slice.append
        (none : Slice Diagnostic)).elems =
        (missingNames (some m) entries).map (missingDiag lib rng) := by
    rw [Slice.elems_foldl_append]
    rfl
  have hvalid : ∀ d ∈ (((missingNames (some m) entries).map (missingDiag lib rng)).foldl
      Slice.append (none : Slice Diagnostic)).elems, d.Severity ≠ DiagInvalid := by
    intro d hd
    rw [helems] at hd
    obtain ⟨k, -, hk⟩ := List.mem_map.mp hd
    subst hk
    simp [missingDiag, DiagError, DiagInvalid]
  refine ⟨_, _, _, hv, HCLDiagsToLSP_valid _ source hvalid,
    convertedDiag source (missingDiag lib rng n), ?_, ?_⟩
  · rw [helems]
    exact List.mem_map_of_mem _ (List.mem_map_of_mem _ hin)
  · rw [convertedDiag_missingDiag]
    refine ⟨rfl, rfl, rfl, fun hp => message_plain lib n hp, rfl, ?_⟩
    omega

/-- C20 at a body that ends at line 2 and lacks the required `ami`, converted
with the source label `hcl`: the message names `"ami"` and the fix inserts at
line 1, character 0, under the key `hcl`. -/
theorem Visit_then_convert_witness :
    ∃ (diags : Slice Diagnostic) (node : Node) (out : List lsp.Diagnostic),
      Visit plainLib []
        (Node.Body { Attributes := some [], SrcRange := ⟨"main.tf", ⟨1, 1, 0⟩, ⟨2, 2, 12⟩⟩ })
        (Schema.BodySchema { Attributes := some [("ami", ⟨true⟩)] }) =
        Outcome.returns (([] : Context), diags, node) ∧
      HCLDiagsToLSP diags "hcl" = Outcome.returns (some out) ∧
      ∃ x ∈ out,
        x.Severity = lsp.SeverityError ∧
        x.Message =
          "Required attribute \"ami\" not specified: An attribute named \"ami\" is required here" ∧
        x.Data = some [{ Title := "Add missing attribute",
                         Kind := "quickfix",
                         Edit := { Changes := some [("hcl",
                                     some [{ Range := ⟨⟨1, 0⟩, ⟨1, 0⟩⟩,
                                             NewText := "ami = null\n" }])] } }] := by
  obtain ⟨diags, node, out, hv, hc, x, hx, hsev, -, -, hplain, hdata, -⟩ :=
    Visit_then_convert plainLib [] [] ⟨"main.tf", ⟨1, 1, 0⟩, ⟨2, 2, 12⟩⟩
      [("ami", ⟨true⟩)] "ami" ⟨true⟩ "hcl" (by decide) (by decide) (by decide) rfl
      (by decide) (by decide)
  exact ⟨diags, node, out, hv, hc, x, hx, hsev, hplain (by decide), hdata⟩

end TerraformLS
